import Mathlib

/-!
# sqliteschema: schema synchronisation for SQLite

A shallow embedding of `main.go` and `sqlmap/sqlmap.go`.

* The statement text assembled by `createTable` and `addColumn` is embedded as
  string functions that replay the `strings.Builder` writes one by one.
* The database connection is an explicit interface record (`DB`) over an
  explicit engine state; every function that touches the connection threads a
  `World` holding that state, the trace of `db.Exec` calls and the log lines.
* A failed type assertion (`i["name"].(string)`) is a run-time panic of the Go
  program, and so is `sqlmap.SelectScan` on the nil handle that a failed
  `db.Query` leaves behind; functions that can reach one return an `Outcome`
  or an `Option`.
-/

namespace SqliteSchema

/-! ## Data model -/

/-- Go struct `Column_Def` of `main.go`; Go `int` fields are integers. -/
structure Column_Def where
  Cid : Int
  Dflt_value : String
  Name : String
  Notnull : Int
  Pk : Int
  CType : String
  deriving DecidableEq, Repr

/-- The zero value of `Column_Def` (what `var pk Column_Def` holds). -/
def Column_Def.zero : Column_Def := ⟨0, "", "", 0, 0, ""⟩

/-- Go type `Schema` (`map[string][]Column_Def`), given as the sequence of
key/value pairs in the order the `range` loop of `syncSchema` visits them.
A Go map holds every key once, which is the `NodupKeys` side condition. -/
abbrev Schema := List (String × List Column_Def)

/-- Keys of a schema are pairwise distinct, as in every Go map. -/
def NodupKeys (schema : Schema) : Prop := (schema.map Prod.fst).Nodup

instance (schema : Schema) : Decidable (NodupKeys schema) :=
  inferInstanceAs (Decidable (schema.map Prod.fst).Nodup)

/-! ## strings.Builder -/

/-- Go `strings.Builder`: the text accumulated so far. -/
abbrev Builder := String

/-- Method `WriteString` of `strings.Builder`: appends to the accumulated text. -/
def Builder.WriteString (sb : Builder) (s : String) : Builder := sb ++ s

/-! ## Statement text of `addColumn` -/

/-- The statement `addColumn` hands to `db.Exec` (`sb.String()` at line 129). -/
def addColumnStmt (tablename : String) (coldef : Column_Def) : String :=
  let sb : Builder := ""
  let sb := sb.WriteString "alter table \""
  let sb := sb.WriteString tablename
  let sb := sb.WriteString "\" add column \""
  let sb := sb.WriteString coldef.Name
  let sb := sb.WriteString "\" "
  let sb := sb.WriteString coldef.CType
  let sb :=
    if coldef.Dflt_value ≠ "" then
      (sb.WriteString " default ").WriteString coldef.Dflt_value
    else sb
  sb

/-! ## Statement text of `createTable` -/

/-- Local variables of `createTable` that its column loop updates. -/
structure CreateState where
  sb : Builder
  pk : Column_Def
  pkfound : Bool

/-- One pass of the body of `for i, c := range schema` in `createTable`;
`len` is `len(schema)`. -/
def createTableStep (len : Int) (i : Int) (c : Column_Def) (s : CreateState) :
    CreateState :=
  let s := if c.Pk = 1 then { s with pk := c, pkfound := true } else s
  let sb := s.sb.WriteString "\""
  let sb := sb.WriteString c.Name
  let sb := sb.WriteString "\" "
  let sb := sb.WriteString c.CType
  let sb := if c.Notnull = 1 then sb.WriteString " not null " else sb
  let sb :=
    if c.Dflt_value ≠ "" then
      (sb.WriteString " default ").WriteString c.Dflt_value
    else sb
  let sb := if i < len - 1 then sb.WriteString ", " else sb
  { s with sb := sb }

/-- The loop `for i, c := range schema` of `createTable`, from index `i` on. -/
def createTableLoop (len : Int) : Int → List Column_Def → CreateState → CreateState
  | _, [], s => s
  | i, c :: cs, s => createTableLoop len (i + 1) cs (createTableStep len i c s)

/-- The statement `createTable` hands to `db.Exec` (`sb.String()` at line 169).
`fmt.Sprintf` with the verb `%s` copies the table name unchanged. -/
def createTableStmt (tablename : String) (schema : List Column_Def) : String :=
  let sb : Builder := ""
  let sb := sb.WriteString ("create table \"" ++ tablename ++ "\" (")
  let s := createTableLoop schema.length 0 schema ⟨sb, Column_Def.zero, false⟩
  let sb := s.sb
  let sb :=
    if s.pkfound then
      ((sb.WriteString ", primary key (\"").WriteString s.pk.Name).WriteString "\")"
    else sb
  sb.WriteString ")"

/-! ## Query results: `sqlmap.SelectScan` -/

/-- A value of Go type `interface{}` as a database driver delivers it. -/
inductive Value where
  | null
  | integer (v : Int)
  | real (bits : Nat)
  | text (s : String)
  | blob (bytes : List Nat)
  deriving DecidableEq, Repr

/-- Go `map[string]interface{}`: bindings, the most recent one for a key first. -/
abbrev Row := List (String × Value)

/-- Assignment `dest[column] = v`. -/
def Row.set (r : Row) (column : String) (v : Value) : Row := (column, v) :: r

/-- Index expression `i[key]`: a key that is absent yields the nil interface. -/
def Row.index (r : Row) (key : String) : Value := (r.lookup key).getD Value.null

/-- Type assertion `.(string)`: `none` stands for the run-time panic. -/
def Value.assertString : Value → Option String
  | Value.text s => some s
  | _ => none

/-- The handle `*sql.Rows` as `SelectScan` consumes it: the result of
`rows.Columns()`, for every successful `rows.Next()` the result of the
`rows.Scan` that follows, and the result of `rows.Err()` once `Next` is false. -/
structure Rows where
  columns : Except String (List String)
  scans : List (Except String (List Value))
  err : Option String

/-- Inner loop `for i, column := range columns` of `SelectScan`. -/
def SelectScan.dest : List String → List Value → Row → Row
  | column :: columns, v :: values, dest => SelectScan.dest columns values (dest.set column v)
  | _, _, dest => dest

/-- Loop `for rows.Next()` of `SelectScan`. -/
def SelectScan.loop (columns : List String) (err : Option String) :
    List (Except String (List Value)) → List Row → Except String (List Row)
  | [], results =>
    match err with
    | some e => Except.error e
    | none => Except.ok results
  | Except.error e :: _, _ => Except.error e
  | Except.ok values :: rest, results =>
    SelectScan.loop columns err rest (results ++ [SelectScan.dest columns values []])

/-- Function `SelectScan` of `sqlmap/sqlmap.go`; the handle is `none` when it
is nil. `rows.Columns()` dereferences the handle, so on nil the function
panics, which the result `none` stands for; otherwise it returns its rows or
its error. -/
def SelectScan (rows : Option Rows) : Option (Except String (List Row)) :=
  match rows with
  | none => none
  | some r =>
    match r.columns with
    | Except.error e => some (Except.error e)
    | Except.ok columns => some (SelectScan.loop columns r.err r.scans [])

/-! ## The database connection -/

/-- A call of `db.Exec`, named by the function that makes it and its arguments. -/
inductive Action where
  | createTable (tablename : String) (schema : List Column_Def)
  | addColumn (tablename : String) (coldef : Column_Def)
  deriving DecidableEq, Repr

/-- Statement text handed to `db.Exec` by the call. -/
def Action.text : Action → String
  | Action.createTable tablename schema => createTableStmt tablename schema
  | Action.addColumn tablename coldef => addColumnStmt tablename coldef

/-- Table a call is about. -/
def Action.table : Action → String
  | Action.createTable tablename _ => tablename
  | Action.addColumn tablename _ => tablename

/-- A call of `db.Query`. -/
inductive Probe where
  | table_list
  | table_info (tablename : String)
  deriving DecidableEq, Repr

/-- Query text handed to `db.Query` by the call. -/
def Probe.text : Probe → String
  | Probe.table_list => "pragma table_list"
  | Probe.table_info tablename => "pragma table_info(" ++ tablename ++ ")"

/-- The connection `db *sql.DB` over an engine state `σ`. `Exec` returns the
next engine state and the error of `db.Exec` (`none` for `nil`); `Query`
returns what `db.Query` returns, a row handle or an error (with a nil handle).
Both receive the text `Action.text` / `Probe.text`; they are indexed by the
call itself, so an engine keyed by statement text is the special case that
looks at the text only. -/
structure DB (σ : Type) where
  Exec : σ → Action → σ × Option String
  Query : σ → Probe → Except String Rows

/-- The assignment `rows, _ := db.Query(...)`: the error is dropped, and the
handle kept is nil (`none`) when there was one. -/
def dropErr : Except String Rows → Option Rows
  | Except.ok rows => some rows
  | Except.error _ => none

/-- Everything a run can change: the engine state, the calls of `db.Exec` so
far with the error each returned, and the lines given to `log.Println`. -/
structure World (σ : Type) where
  st : σ
  trace : List (Action × Option String)
  logged : List String

/-- World before a run. -/
def World.init {σ : Type} (s : σ) : World σ := ⟨s, [], []⟩

/-- `log.Println` of one line (time stamp left out). -/
def World.log {σ : Type} (w : World σ) (line : String) : World σ :=
  { w with logged := w.logged ++ [line] }

/-- The calls of `db.Exec` made so far, in order. -/
def World.issued {σ : Type} (w : World σ) : List Action := w.trace.map Prod.fst

/-- Result of a function that may panic: the world it reached either way. -/
inductive Outcome (σ : Type) where
  | done (w : World σ)
  | panicked (w : World σ)

/-- World an outcome carries. -/
def Outcome.world {σ : Type} : Outcome σ → World σ
  | Outcome.done w => w
  | Outcome.panicked w => w

/-! ## Functions of `main.go` -/

/-- Function `addColumn`: executes the statement, logs an error if there is
one, logs the `adding column` line and returns. -/
def addColumn {σ : Type} (db : DB σ) (w : World σ) (tablename : String)
    (coldef : Column_Def) : World σ :=
  let r := db.Exec w.st (Action.addColumn tablename coldef)
  let w := { w with st := r.1, trace := w.trace ++ [(Action.addColumn tablename coldef, r.2)] }
  let w := match r.2 with
    | some err => w.log err
    | none => w
  w.log ("adding column " ++ coldef.Name ++ " to table " ++ tablename)

/-- Function `createTable`: logs the `creating table` line, executes the
statement, logs an error if there is one and returns. -/
def createTable {σ : Type} (db : DB σ) (w : World σ) (tablename : String)
    (schema : List Column_Def) : World σ :=
  let w := w.log ("creating table " ++ tablename)
  let r := db.Exec w.st (Action.createTable tablename schema)
  let w := { w with st := r.1, trace := w.trace ++ [(Action.createTable tablename schema, r.2)] }
  match r.2 with
  | some err => w.log err
  | none => w

/-- Go `map[string]bool` in which every stored value is `true`: its keys. -/
abbrev TableSet := List String

/-- Loop of `getTables`: `tables[i["name"].(string)] = true`. -/
def getTables.loop : List Row → TableSet → Option TableSet
  | [], tables => some tables
  | i :: o, tables =>
    match (i.index "name").assertString with
    | none => none
    | some name => getTables.loop o (name :: tables)

/-- Function `getTables`. The error of `db.Query` is dropped and the handle
passed on; an error of `SelectScan` is logged and the nil map returned. `none`
stands for a panic, of `SelectScan` on a nil handle or of the type assertion. -/
def getTables {σ : Type} (db : DB σ) (w : World σ) : Option TableSet × World σ :=
  let rows := dropErr (db.Query w.st Probe.table_list)
  match SelectScan rows with
  | none => (none, w)
  | some (Except.error err) => (some [], w.log err)
  | some (Except.ok o) => (getTables.loop o [], w)

/-- Function `getTableDef`. The error of `db.Query` is dropped and the handle
passed on; the error of `SelectScan` is dropped and its (nil) rows returned.
`none` stands for the panic of `SelectScan` on a nil handle. -/
def getTableDef {σ : Type} (db : DB σ) (w : World σ) (tablename : String) :
    Option (List Row) × World σ :=
  let w := w.log ("table name " ++ tablename)
  let rows := dropErr (db.Query w.st (Probe.table_info tablename))
  match SelectScan rows with
  | none => (none, w)
  | some (Except.ok oo) => (some oo, w)
  | some (Except.error _) => (some [], w)

/-- Loop of `hasColumn`; it visits every row, `ret` is never reset. -/
def hasColumn.loop (newc : Column_Def) : List Row → Bool → Option Bool
  | [], ret => some ret
  | i :: dbc, ret =>
    match (i.index "name").assertString with
    | none => none
    | some name => hasColumn.loop newc dbc (if name = newc.Name then true else ret)

/-- Function `hasColumn`; `none` stands for a panic of the type assertion. -/
def hasColumn (dbc : List Row) (newc : Column_Def) : Option Bool :=
  hasColumn.loop newc dbc false

/-- Loop `for _, c := range schema` of `syncColumns`. -/
def syncColumns.loop {σ : Type} (db : DB σ) (tablename : String) (dbtable : List Row) :
    List Column_Def → World σ → Outcome σ
  | [], w => Outcome.done w
  | c :: cs, w =>
    match hasColumn dbtable c with
    | none => Outcome.panicked w
    | some true => syncColumns.loop db tablename dbtable cs w
    | some false => syncColumns.loop db tablename dbtable cs (addColumn db w tablename c)

/-- Function `syncColumns`; a panic inside `getTableDef` ends it. -/
def syncColumns {σ : Type} (db : DB σ) (w : World σ) (tablename : String)
    (schema : List Column_Def) : Outcome σ :=
  match getTableDef db w tablename with
  | (none, w1) => Outcome.panicked w1
  | (some dbtable, w1) => syncColumns.loop db tablename dbtable schema w1

/-- Loop `for k, v := range schema` of `syncSchema`. -/
def syncSchema.loop {σ : Type} (db : DB σ) (tables : TableSet) :
    Schema → World σ → Outcome σ
  | [], w => Outcome.done w
  | (k, v) :: rest, w =>
    if ¬ k ∈ tables then
      syncSchema.loop db tables rest (createTable db w k v)
    else
      match syncColumns db w k v with
      | Outcome.done w1 => syncSchema.loop db tables rest w1
      | Outcome.panicked w1 => Outcome.panicked w1

/-- Function `syncSchema` from line 77 on: the schema file has been read and
decoded and the connection opened. -/
def syncSchema {σ : Type} (db : DB σ) (schema : Schema) (w : World σ) : Outcome σ :=
  match getTables db w with
  | (none, w1) => Outcome.panicked w1
  | (some tables, w1) => syncSchema.loop db tables schema w1

/-- Go `strings.HasPrefix`, the test `extract` applies to a table name at
line 212 of `main.go`. -/
def HasPrefix (s pre : String) : Bool := pre.data.isPrefixOf s.data

/-! ## An abstract engine -/

/-- Abstract database state: the tables present and, per table name, the list
of its column names; `execs` counts the statements received. -/
structure AbsState where
  names : List String
  cols : String → List String
  execs : Nat

/-- Engine answer to a statement. `fails n a` says whether the `n`-th statement
`a` is rejected; a rejected statement changes nothing. A successful
`createTable` adds the table with its desired columns, a successful
`addColumn` appends the column. -/
def absExec (fails : Nat → Action → Bool) (D : AbsState) (a : Action) :
    AbsState × Option String :=
  let D1 : AbsState := { D with execs := D.execs + 1 }
  if fails D.execs a then (D1, some "statement rejected")
  else
    match a with
    | Action.createTable t schema =>
      if t ∈ D.names then (D1, some "table already exists")
      else
        ({ D1 with
            names := D.names ++ [t],
            cols := fun x => if x = t then schema.map Column_Def.Name else D.cols x },
          none)
    | Action.addColumn t c =>
      if t ∈ D.names then
        ({ D1 with cols := fun x => if x = t then D.cols t ++ [c.Name] else D.cols x }, none)
      else (D1, some "no such table")

/-- Rows with the single column `name`. -/
def nameRows (names : List String) : Rows :=
  ⟨Except.ok ["name"], names.map (fun n => Except.ok [Value.text n]), none⟩

/-- Engine answer to a metadata query; the abstract engine answers every one. -/
def absQuery (D : AbsState) : Probe → Except String Rows
  | Probe.table_list => Except.ok (nameRows D.names)
  | Probe.table_info t => Except.ok (nameRows (if t ∈ D.names then D.cols t else []))

/-- The abstract engine as a connection. -/
def absDB (fails : Nat → Action → Bool) : DB AbsState := ⟨absExec fails, absQuery⟩

/-- An engine with fixed metadata `catalog` whose every statement returns `err`;
its state counts the statements received. -/
def fixedDB (catalog : Probe → Except String Rows) (err : Option String) : DB Nat :=
  ⟨fun n _ => (n + 1, err), fun _ q => catalog q⟩

/-- Every row has a string under the key `name`. -/
def NamedRows (rows : List Row) : Prop :=
  ∀ r ∈ rows, ∃ n : String, r.index "name" = Value.text n

/-- Some row has the string `n` under the key `name`. -/
def Listed (rows : List Row) (n : String) : Prop :=
  ∃ r ∈ rows, r.index "name" = Value.text n

instance (rows : List Row) (n : String) : Decidable (Listed rows n) :=
  inferInstanceAs (Decidable (∃ r ∈ rows, r.index "name" = Value.text n))

/-- Metadata of a database that holds the table `person` with the one column
`age INTEGER`, next to the engine's own `sqlite_schema`. -/
def personMeta : Probe → Except String Rows
  | Probe.table_list =>
    Except.ok
      ⟨Except.ok ["schema", "name", "type", "ncol", "wr", "strict"],
       [Except.ok [Value.text "main", Value.text "person", Value.text "table",
          Value.integer 1, Value.integer 0, Value.integer 0],
        Except.ok [Value.text "main", Value.text "sqlite_schema", Value.text "table",
          Value.integer 5, Value.integer 0, Value.integer 0]],
       none⟩
  | Probe.table_info _ =>
    Except.ok
      ⟨Except.ok ["cid", "name", "type", "notnull", "dflt_value", "pk"],
       [Except.ok [Value.integer 0, Value.text "age", Value.text "INTEGER",
          Value.integer 0, Value.null, Value.integer 0]],
       none⟩

/-- Metadata of a database that holds the table `my-table`: the engine lists
it, and rejects the column probe `pragma table_info(my-table)`, whose text
does not parse, so `db.Query` returns an error. -/
def hyphenMeta : Probe → Except String Rows
  | Probe.table_list =>
    Except.ok
      ⟨Except.ok ["schema", "name", "type", "ncol", "wr", "strict"],
       [Except.ok [Value.text "main", Value.text "my-table", Value.text "table",
          Value.integer 1, Value.integer 0, Value.integer 0],
        Except.ok [Value.text "main", Value.text "sqlite_schema", Value.text "table",
          Value.integer 5, Value.integer 0, Value.integer 0]],
       none⟩
  | Probe.table_info _ => Except.error "near \"-\": syntax error"

/-- A desired schema: `my-table(id, note)` and `pet(id)`, visited in this order. -/
def hyphenSchema : Schema :=
  [("my-table", [⟨0, "", "id", 0, 0, "INTEGER"⟩, ⟨1, "", "note", 0, 0, "TEXT"⟩]),
   ("pet", [⟨0, "", "id", 0, 1, "INTEGER"⟩])]

/-- Every query of the connection yields a handle, and every row read from
one has a string under the key `name`. -/
def WellFormed {σ : Type} (db : DB σ) : Prop :=
  ∀ (s : σ) (q : Probe),
    (∃ rows, db.Query s q = Except.ok rows)
      ∧ ∀ o : List Row, SelectScan (dropErr (db.Query s q)) = some (Except.ok o) → NamedRows o

/-- Whether a run returned (rather than panicked). -/
def Outcome.isDone {σ : Type} : Outcome σ → Bool
  | Outcome.done _ => true
  | Outcome.panicked _ => false

/-- The statements of a run that are about table `k`, in order. -/
def issuedFor {σ : Type} (w : World σ) (k : String) : List Action :=
  w.issued.filter (fun a => decide (a.table = k))

/-- Second state keeps every table of the first and every column of those tables. -/
def Extends (D E : AbsState) : Prop :=
  D.names ⊆ E.names ∧ ∀ t ∈ D.names, D.cols t ⊆ E.cols t

/-- Two states say the same about table `x`. -/
def SameAt (x : String) (D E : AbsState) : Prop :=
  (x ∈ E.names ↔ x ∈ D.names) ∧ E.cols x = D.cols x

/-- Rows that `SelectScan` builds from `nameRows`. -/
def absRows (names : List String) : List Row :=
  names.map (fun n => [("name", Value.text n)])

/-- Abstract state of a database that holds the one table `person` with the
one column `age`. -/
def personState : AbsState :=
  ⟨["person"], fun t => if t = "person" then ["age"] else [], 0⟩

/-- A desired schema: `person(age, nick)` and `pet(id)`. -/
def petSchema : Schema :=
  [("person", [⟨0, "", "age", 0, 0, "INTEGER"⟩, ⟨1, "", "nick", 0, 0, "TEXT"⟩]),
   ("pet", [⟨0, "", "id", 0, 1, "INTEGER"⟩])]

/-! ## Reference renderings, written after the specification -/

/-- Column clause of a `create table` statement as the code emits it:
quoted name, type, then ` not null ` (with its trailing blank) and the default. -/
def columnClause (c : Column_Def) : String :=
  "\"" ++ c.Name ++ "\" " ++ c.CType
    ++ (if c.Notnull = 1 then " not null " else "")
    ++ (if c.Dflt_value ≠ "" then " default " ++ c.Dflt_value else "")

/-- Column clause as the specification words it:
`"<name>" <type>[ not null][ default <default_value>]`, no further blanks. -/
def columnClauseSpec (c : Column_Def) : String :=
  "\"" ++ c.Name ++ "\" " ++ c.CType
    ++ (if c.Notnull = 1 then " not null" else "")
    ++ (if c.Dflt_value ≠ "" then " default " ++ c.Dflt_value else "")

/-- The columns that carry the primary-key flag (`Pk == 1`), in list order. -/
def flagged (schema : List Column_Def) : List Column_Def :=
  schema.filter (fun c => c.Pk = 1)

/-- Primary-key clause: empty when no column is flagged, otherwise the clause
naming the last flagged column. -/
def primaryKeyClause (schema : List Column_Def) : String :=
  match (flagged schema).getLast? with
  | none => ""
  | some pk => ", primary key (\"" ++ pk.Name ++ "\")"

/-- Statement of `createTable` as the specification words it. -/
def createTableSpec (tablename : String) (schema : List Column_Def) : String :=
  "create table \"" ++ tablename ++ "\" ("
    ++ ", ".intercalate (schema.map columnClauseSpec)
    ++ primaryKeyClause schema ++ ")"

/-! ## Lemmas on the statement text -/

theorem intercalate_cons_cons (sep a b : String) (l : List String) :
    sep.intercalate (a :: b :: l) = a ++ sep ++ sep.intercalate (b :: l) := by
  have go : ∀ (l : List String) (acc x : String),
      String.intercalate.go (acc ++ x) sep l = acc ++ String.intercalate.go x sep l := by
    intro l
    induction l with
    | nil => intro acc x; simp [String.intercalate.go]
    | cons c l ih =>
      intro acc x
      simp only [String.intercalate.go]
      rw [← ih acc (x ++ sep ++ c)]
      simp [String.append_assoc]
  simp only [String.intercalate, String.intercalate.go]
  rw [← go l (a ++ sep) b]

theorem createTableStep_sb (len i : Int) (c : Column_Def) (s : CreateState) :
    (createTableStep len i c s).sb
      = s.sb ++ columnClause c ++ (if i < len - 1 then ", " else "") := by
  unfold createTableStep columnClause Builder.WriteString
  by_cases h1 : c.Pk = 1 <;> by_cases h2 : c.Notnull = 1 <;>
    by_cases h3 : c.Dflt_value = "" <;> by_cases h4 : i < len - 1 <;>
    simp [h1, h2, h3, h4, String.append_assoc, -String.reduceAppend]

theorem createTableStep_pk (len i : Int) (c : Column_Def) (s : CreateState) :
    (createTableStep len i c s).pk = (if c.Pk = 1 then c else s.pk)
      ∧ (createTableStep len i c s).pkfound = (if c.Pk = 1 then true else s.pkfound) := by
  unfold createTableStep
  by_cases h1 : c.Pk = 1 <;> simp [h1]

/-- The column loop appends the clauses joined by `, ` and remembers the last
flagged column. -/
theorem createTableLoop_eq (len : Int) :
    ∀ (cs : List Column_Def) (i : Int) (s : CreateState), i + cs.length = len →
      (createTableLoop len i cs s).sb = s.sb ++ ", ".intercalate (cs.map columnClause)
      ∧ (createTableLoop len i cs s).pk = ((flagged cs).getLast?).getD s.pk
      ∧ (createTableLoop len i cs s).pkfound = (s.pkfound || (flagged cs).getLast?.isSome) := by
  intro cs
  induction cs with
  | nil => intro i s _; simp [createTableLoop, flagged, String.intercalate]
  | cons c cs ih =>
    intro i s hlen
    have hlen' : (i + 1) + (cs.length : Int) = len := by
      simp only [List.length_cons] at hlen; push_cast at hlen; omega
    obtain ⟨h1, h2, h3⟩ := ih (i + 1) (createTableStep len i c s) hlen'
    obtain ⟨hp, hf⟩ := createTableStep_pk len i c s
    simp only [createTableLoop]
    refine ⟨?_, ?_, ?_⟩
    · rw [h1, createTableStep_sb]
      cases cs with
      | nil =>
        have : ¬ i < len - 1 := by simp at hlen'; omega
        simp [this, String.intercalate, String.intercalate.go]
      | cons d ds =>
        have : i < len - 1 := by
          simp only [List.length_cons] at hlen'; push_cast at hlen'; omega
        simp only [List.map_cons]
        rw [intercalate_cons_cons]
        simp [this, String.append_assoc]
    · rw [h2, hp]
      by_cases hc : c.Pk = 1
      · simp only [hc, if_true]
        have : flagged (c :: cs) = c :: flagged cs := by simp [flagged, hc]
        rw [this]
        cases hfl : flagged cs with
        | nil => simp
        | cons d ds =>
          rw [List.getLast?_cons_cons, List.getLast?_eq_getLast _ (List.cons_ne_nil d ds)]
          simp
      · have : flagged (c :: cs) = flagged cs := by simp [flagged, hc]
        simp [this, hc]
    · rw [h3, hf]
      by_cases hc : c.Pk = 1
      · have : flagged (c :: cs) = c :: flagged cs := by simp [flagged, hc]
        rw [this]
        cases hfl : flagged cs with
        | nil => simp [hc]
        | cons d ds => simp [hc, List.getLast?_cons_cons]
      · have : flagged (c :: cs) = flagged cs := by simp [flagged, hc]
        simp [this, hc]

/-- Closed form of the statement built by `createTable`. -/
theorem createTableStmt_eq (tablename : String) (schema : List Column_Def) :
    createTableStmt tablename schema
      = "create table \"" ++ tablename ++ "\" ("
        ++ ", ".intercalate (schema.map columnClause)
        ++ primaryKeyClause schema ++ ")" := by
  obtain ⟨h1, h2, h3⟩ :=
    createTableLoop_eq schema.length schema 0
      ⟨"create table \"" ++ tablename ++ "\" (", Column_Def.zero, false⟩ (by simp)
  unfold createTableStmt primaryKeyClause Builder.WriteString
  simp only [String.empty_append] 
  rw [h3, h2, h1]
  cases hfl : (flagged schema).getLast? with
  | none => simp [String.append_assoc]
  | some pk => simp [String.append_assoc]

/-! ## Statement text: `createTable` and `addColumn` -/

/-- C1 (as the code has it): for every table name and column list the statement
of `createTable` is `create table "<name>" (`, the column clauses separated by
`, `, the optional primary-key clause and `)`; a column clause is the quoted
name, a blank, the type copied as is, then ` not null ` with a trailing blank
iff `Notnull` is 1, then ` default <Dflt_value>` iff `Dflt_value` is not
empty, and nothing else. -/
theorem createTable_statement (tablename : String) (schema : List Column_Def) :
    createTableStmt tablename schema
        = "create table \"" ++ tablename ++ "\" ("
          ++ ", ".intercalate (schema.map columnClause)
          ++ primaryKeyClause schema ++ ")"
      ∧ ∀ c : Column_Def,
          columnClause c
            = "\"" ++ c.Name ++ "\" " ++ c.CType
              ++ (if c.Notnull = 1 then " not null " else "")
              ++ (if c.Dflt_value ≠ "" then " default " ++ c.Dflt_value else "") :=
  ⟨createTableStmt_eq tablename schema, fun _ => rfl⟩

/-- C1 as worded fails on the columns of its own example: the code writes a
blank after `not null`, the worded clause has none. -/
theorem createTable_statement_not_as_worded :
    createTableStmt "t" [⟨0, "", "id", 0, 1, "INTEGER"⟩, ⟨1, "", "label", 1, 0, "TEXT"⟩]
        = "create table \"t\" (\"id\" INTEGER, \"label\" TEXT not null , primary key (\"id\"))"
      ∧ createTableSpec "t" [⟨0, "", "id", 0, 1, "INTEGER"⟩, ⟨1, "", "label", 1, 0, "TEXT"⟩]
        = "create table \"t\" (\"id\" INTEGER, \"label\" TEXT not null, primary key (\"id\"))"
      ∧ createTableStmt "t" [⟨0, "", "id", 0, 1, "INTEGER"⟩, ⟨1, "", "label", 1, 0, "TEXT"⟩]
        ≠ createTableSpec "t" [⟨0, "", "id", 0, 1, "INTEGER"⟩, ⟨1, "", "label", 1, 0, "TEXT"⟩] := by
  refine ⟨by decide, by decide, by decide⟩

theorem flagged_eq_nil {schema : List Column_Def} (h : ∀ c ∈ schema, c.Pk ≠ 1) :
    flagged schema = [] := by
  simp only [flagged, List.filter_eq_nil_iff, decide_eq_true_eq]
  exact h

theorem flagged_last (pre post : List Column_Def) (pk : Column_Def)
    (hpk : pk.Pk = 1) (hpost : ∀ c ∈ post, c.Pk ≠ 1) :
    (flagged (pre ++ pk :: post)).getLast? = some pk := by
  have h1 : flagged (pre ++ pk :: post) = flagged pre ++ [pk] := by
    simp only [flagged, List.filter_append, List.filter_cons, hpk, decide_True, if_true]
    have : List.filter (fun c => decide (c.Pk = 1)) post = [] := flagged_eq_nil hpost
    rw [this]
  rw [h1]
  simp

/-- Every list with a flagged column splits at its last flagged column. -/
theorem exists_last_flagged :
    ∀ schema : List Column_Def, (∃ c ∈ schema, c.Pk = 1) →
      ∃ pre pk post, schema = pre ++ pk :: post ∧ pk.Pk = 1 ∧ ∀ c ∈ post, c.Pk ≠ 1 := by
  intro schema
  induction schema with
  | nil => rintro ⟨c, hc, _⟩; cases hc
  | cons d ds ih =>
    intro _
    by_cases hds : ∃ c ∈ ds, c.Pk = 1
    · obtain ⟨pre, pk, post, he, hpk, hpost⟩ := ih hds
      exact ⟨d :: pre, pk, post, by rw [he]; rfl, hpk, hpost⟩
    · have hd : d.Pk = 1 := by
        rename_i h
        obtain ⟨c, hc, hc1⟩ := h
        rcases List.mem_cons.1 hc with rfl | hc
        · exact hc1
        · exact absurd ⟨c, hc, hc1⟩ hds
      refine ⟨[], d, ds, rfl, hd, ?_⟩
      intro c hc hc1
      exact hds ⟨c, hc, hc1⟩

/-- C2: if no column has `Pk == 1` the statement of `createTable` is the header,
the column clauses and `)` with no primary-key clause; if some column has
`Pk == 1` the list splits at its last such column `pk`, and the statement is
the header, the column clauses, the one clause `, primary key ("<pk.Name>")`
and `)`. -/
theorem createTable_primary_key (tablename : String) (schema : List Column_Def) :
    ((∀ c ∈ schema, c.Pk ≠ 1) →
        createTableStmt tablename schema
          = "create table \"" ++ tablename ++ "\" ("
            ++ ", ".intercalate (schema.map columnClause) ++ ")")
      ∧ ((∃ c ∈ schema, c.Pk = 1) →
          ∃ pre pk post, schema = pre ++ pk :: post ∧ pk.Pk = 1 ∧ (∀ c ∈ post, c.Pk ≠ 1)
            ∧ createTableStmt tablename schema
              = "create table \"" ++ tablename ++ "\" ("
                ++ ", ".intercalate (schema.map columnClause)
                ++ ", primary key (\"" ++ pk.Name ++ "\")" ++ ")") := by
  constructor
  · intro h
    rw [createTableStmt_eq, primaryKeyClause, flagged_eq_nil h]
    simp
  · intro h
    obtain ⟨pre, pk, post, he, hpk, hpost⟩ := exists_last_flagged schema h
    refine ⟨pre, pk, post, he, hpk, hpost, ?_⟩
    rw [createTableStmt_eq, primaryKeyClause]
    have := flagged_last pre post pk hpk hpost
    rw [← he] at this
    rw [this]
    simp [String.append_assoc]

/-- C2 at two lists: without a flagged column no clause is added, and of two
flagged columns the later one is named. -/
theorem createTable_primary_key_witness :
    createTableStmt "t" [⟨0, "", "a", 0, 0, "TEXT"⟩]
        = "create table \"t\" (" ++ ", ".intercalate
            ([(⟨0, "", "a", 0, 0, "TEXT"⟩ : Column_Def)].map columnClause) ++ ")"
      ∧ ∃ pre pk post,
          [(⟨0, "", "a", 0, 1, "TEXT"⟩ : Column_Def), ⟨1, "", "b", 0, 1, "TEXT"⟩]
              = pre ++ pk :: post
            ∧ pk.Pk = 1 ∧ (∀ c ∈ post, c.Pk ≠ 1)
            ∧ createTableStmt "t" [⟨0, "", "a", 0, 1, "TEXT"⟩, ⟨1, "", "b", 0, 1, "TEXT"⟩]
              = "create table \"t\" (" ++ ", ".intercalate
                  ([(⟨0, "", "a", 0, 1, "TEXT"⟩ : Column_Def),
                    ⟨1, "", "b", 0, 1, "TEXT"⟩].map columnClause)
                ++ ", primary key (\"" ++ pk.Name ++ "\")" ++ ")" :=
  ⟨(createTable_primary_key "t" [⟨0, "", "a", 0, 0, "TEXT"⟩]).1 (by decide),
   (createTable_primary_key "t" [⟨0, "", "a", 0, 1, "TEXT"⟩, ⟨1, "", "b", 0, 1, "TEXT"⟩]).2
     ⟨⟨0, "", "a", 0, 1, "TEXT"⟩, by simp, rfl⟩⟩

/-- C3: for every table name and column the statement of `addColumn` is
`alter table "<table>" add column "<name>" <type>`, then ` default <Dflt_value>`
iff `Dflt_value` is not empty; two columns that agree on name, type and
default give the same statement whatever their `Notnull`, `Pk` and `Cid`; and
the column `note` of the specification gives the statement quoted there. -/
theorem addColumn_statement :
    (∀ (tablename : String) (coldef : Column_Def),
        addColumnStmt tablename coldef
          = "alter table \"" ++ tablename ++ "\" add column \"" ++ coldef.Name ++ "\" "
            ++ coldef.CType
            ++ (if coldef.Dflt_value ≠ "" then " default " ++ coldef.Dflt_value else ""))
      ∧ (∀ (tablename : String) (c : Column_Def) (cid notnull pk : Int),
          addColumnStmt tablename { c with Cid := cid, Notnull := notnull, Pk := pk }
            = addColumnStmt tablename c)
      ∧ addColumnStmt "t" ⟨0, "'x'", "note", 0, 0, "TEXT"⟩
          = "alter table \"t\" add column \"note\" TEXT default 'x'"
      ∧ addColumnStmt "t" ⟨0, "'x'", "note", 1, 0, "TEXT"⟩
          = "alter table \"t\" add column \"note\" TEXT default 'x'" := by
  refine ⟨?_, ?_, by decide, by decide⟩
  · intro tablename coldef
    unfold addColumnStmt Builder.WriteString
    by_cases h : coldef.Dflt_value = "" <;>
      simp [h, String.append_assoc, -String.reduceAppend]
  · intro tablename c cid notnull pk
    rfl

/-! ## Column diff: `hasColumn` and `syncColumns` -/

@[simp] theorem log_st {σ : Type} (w : World σ) (l : String) : (w.log l).st = w.st := rfl

@[simp] theorem log_trace {σ : Type} (w : World σ) (l : String) :
    (w.log l).trace = w.trace := rfl

@[simp] theorem log_issued {σ : Type} (w : World σ) (l : String) :
    (w.log l).issued = w.issued := rfl

theorem addColumn_trace {σ : Type} (db : DB σ) (w : World σ) (t : String) (c : Column_Def) :
    (addColumn db w t c).trace
      = w.trace ++ [(Action.addColumn t c, (db.Exec w.st (Action.addColumn t c)).2)] := by
  unfold addColumn
  generalize db.Exec w.st (Action.addColumn t c) = r
  obtain ⟨s, e⟩ := r
  cases e <;> rfl

theorem addColumn_st {σ : Type} (db : DB σ) (w : World σ) (t : String) (c : Column_Def) :
    (addColumn db w t c).st = (db.Exec w.st (Action.addColumn t c)).1 := by
  unfold addColumn
  generalize db.Exec w.st (Action.addColumn t c) = r
  obtain ⟨s, e⟩ := r
  cases e <;> rfl

theorem createTable_trace {σ : Type} (db : DB σ) (w : World σ) (t : String)
    (v : List Column_Def) :
    (createTable db w t v).trace
      = w.trace ++ [(Action.createTable t v, (db.Exec w.st (Action.createTable t v)).2)] := by
  unfold createTable
  simp only [log_st, log_trace]
  generalize db.Exec w.st (Action.createTable t v) = r
  obtain ⟨s, e⟩ := r
  cases e <;> rfl

theorem createTable_st {σ : Type} (db : DB σ) (w : World σ) (t : String)
    (v : List Column_Def) :
    (createTable db w t v).st = (db.Exec w.st (Action.createTable t v)).1 := by
  unfold createTable
  simp only [log_st]
  generalize db.Exec w.st (Action.createTable t v) = r
  obtain ⟨s, e⟩ := r
  cases e <;> rfl

theorem addColumn_issued {σ : Type} (db : DB σ) (w : World σ) (t : String) (c : Column_Def) :
    (addColumn db w t c).issued = w.issued ++ [Action.addColumn t c] := by
  simp [World.issued, addColumn_trace]

theorem createTable_issued {σ : Type} (db : DB σ) (w : World σ) (t : String)
    (v : List Column_Def) :
    (createTable db w t v).issued = w.issued ++ [Action.createTable t v] := by
  simp [World.issued, createTable_trace]

theorem hasColumn_loop_named (newc : Column_Def) :
    ∀ (dbc : List Row) (ret : Bool), NamedRows dbc →
      hasColumn.loop newc dbc ret = some (ret || decide (Listed dbc newc.Name)) := by
  intro dbc
  induction dbc with
  | nil => intro ret _; simp [hasColumn.loop, Listed]
  | cons r rs ih =>
    intro ret h
    obtain ⟨n, hn⟩ := h r (List.mem_cons_self _ _)
    have hrs : NamedRows rs := fun x hx => h x (List.mem_cons_of_mem _ hx)
    simp only [hasColumn.loop, hn, Value.assertString]
    rw [ih _ hrs]
    by_cases hname : n = newc.Name
    · have : Listed (r :: rs) newc.Name := ⟨r, List.mem_cons_self _ _, hname ▸ hn⟩
      simp [hname, this]
    · have : Listed (r :: rs) newc.Name ↔ Listed rs newc.Name := by
        constructor
        · rintro ⟨x, hx, hxn⟩
          rcases List.mem_cons.1 hx with rfl | hx
          · rw [hn] at hxn; cases hxn; exact absurd rfl hname
          · exact ⟨x, hx, hxn⟩
        · rintro ⟨x, hx, hxn⟩
          exact ⟨x, List.mem_cons_of_mem _ hx, hxn⟩
      simp [hname, this]

theorem hasColumn_named (dbc : List Row) (newc : Column_Def) (h : NamedRows dbc) :
    hasColumn dbc newc = some (decide (Listed dbc newc.Name)) := by
  unfold hasColumn
  rw [hasColumn_loop_named newc dbc false h]
  simp

/-- On rows that all carry a name the column loop adds the unlisted columns. -/
theorem syncColumns_loop_named {σ : Type} (db : DB σ) (t : String) (dbtable : List Row)
    (h : NamedRows dbtable) :
    ∀ (cs : List Column_Def) (w : World σ),
      ∃ w1, syncColumns.loop db t dbtable cs w = Outcome.done w1
        ∧ w1.issued
          = w.issued ++ (cs.filter (fun c => decide (¬ Listed dbtable c.Name))).map
              (Action.addColumn t) := by
  intro cs
  induction cs with
  | nil => intro w; exact ⟨w, rfl, by simp⟩
  | cons c cs ih =>
    intro w
    simp only [syncColumns.loop, hasColumn_named dbtable c h]
    by_cases hl : Listed dbtable c.Name
    · obtain ⟨w1, h1, h2⟩ := ih w
      refine ⟨w1, ?_, ?_⟩
      · simp [hl, h1]
      · simp [hl, h2]
    · obtain ⟨w1, h1, h2⟩ := ih (addColumn db w t c)
      refine ⟨w1, ?_, ?_⟩
      · simp [hl, h1]
      · simp [hl, h2, addColumn_issued]

theorem getTableDef_issued {σ : Type} (db : DB σ) (w : World σ) (t : String) :
    (getTableDef db w t).2.issued = w.issued := by
  unfold getTableDef
  simp only [log_st]
  generalize SelectScan (dropErr (db.Query w.st (Probe.table_info t))) = r
  rcases r with _ | _ | _ <;> rfl

theorem syncColumns_of_rows {σ : Type} (db : DB σ) (w : World σ) (t : String)
    (v : List Column_Def) (E : List Row) (h : (getTableDef db w t).1 = some E) :
    syncColumns db w t v = syncColumns.loop db t E v (getTableDef db w t).2 := by
  unfold syncColumns
  generalize getTableDef db w t = g at h
  obtain ⟨g1, g2⟩ := g
  simp only at h
  subst h
  rfl

/-- C4: when the column probe has delivered rows `E` that all have a string
`name`, `syncColumns` returns, and the statements it issues are `addColumn` for
exactly the desired columns whose name no row of `E` carries, once each, in
desired order; `hasColumn` on `E` is true iff some row carries the column's
name. -/
theorem syncColumns_adds_missing {σ : Type} (db : DB σ) (w : World σ) (tablename : String)
    (schema : List Column_Def) (E : List Row)
    (hprobe : (getTableDef db w tablename).1 = some E) (hE : NamedRows E) :
    (∃ w1, syncColumns db w tablename schema = Outcome.done w1
        ∧ w1.issued
          = w.issued
            ++ (schema.filter (fun c => decide (¬ Listed E c.Name))).map
                (Action.addColumn tablename))
      ∧ ∀ c : Column_Def, hasColumn E c = some (decide (Listed E c.Name)) := by
  refine ⟨?_, fun c => hasColumn_named _ c hE⟩
  obtain ⟨w1, h1, h2⟩ :=
    syncColumns_loop_named db tablename E hE schema (getTableDef db w tablename).2
  refine ⟨w1, ?_, ?_⟩
  · rw [syncColumns_of_rows db w tablename schema E hprobe]
    exact h1
  · rw [h2, getTableDef_issued]

theorem personMeta_probe :
    (getTableDef (fixedDB personMeta none) (World.init 0) "person").1
      = some [[("pk", Value.integer 0), ("dflt_value", Value.null),
          ("notnull", Value.integer 0), ("type", Value.text "INTEGER"),
          ("name", Value.text "age"), ("cid", Value.integer 0)]] := by
  decide

theorem personMeta_named :
    NamedRows [[("pk", Value.integer 0), ("dflt_value", Value.null),
      ("notnull", Value.integer 0), ("type", Value.text "INTEGER"),
      ("name", Value.text "age"), ("cid", Value.integer 0)]] := by
  intro r hr
  rw [List.mem_singleton.1 hr]
  exact ⟨"age", by decide⟩

/-- C4 on the example of the specification: the existing column `age INTEGER`
against the desired column `age TEXT` yields no statement. -/
theorem syncColumns_adds_missing_witness :
    ∃ w1, syncColumns (fixedDB personMeta none) (World.init 0) "person"
          [⟨0, "", "age", 0, 0, "TEXT"⟩] = Outcome.done w1
        ∧ w1.issued = [] := by
  obtain ⟨w1, h1, h2⟩ :=
    (syncColumns_adds_missing (fixedDB personMeta none) (World.init 0) "person"
      [⟨0, "", "age", 0, 0, "TEXT"⟩] _ personMeta_probe personMeta_named).1
  refine ⟨w1, h1, ?_⟩
  rw [h2]
  decide

/-! ## A failed column probe -/

/-- When `SelectScan` reports an error for the column probe, `getTableDef`
returns no rows and `syncColumns` adds every desired column. -/
theorem scan_error_adds_every_column {σ : Type} (db : DB σ) (w : World σ)
    (tablename : String) (schema : List Column_Def) (e : String)
    (h : SelectScan (dropErr (db.Query w.st (Probe.table_info tablename)))
        = some (Except.error e)) :
    getTableDef db w tablename = (some [], w.log ("table name " ++ tablename))
      ∧ ∃ w1, syncColumns db w tablename schema = Outcome.done w1
          ∧ w1.issued = w.issued ++ schema.map (Action.addColumn tablename) := by
  have hdef : getTableDef db w tablename = (some [], w.log ("table name " ++ tablename)) := by
    unfold getTableDef
    simp only [log_st, h]
  refine ⟨hdef, ?_⟩
  have hnamed : NamedRows ([] : List Row) := fun r hr => by cases hr
  obtain ⟨w1, h1, h2⟩ :=
    syncColumns_loop_named db tablename [] hnamed schema (w.log ("table name " ++ tablename))
  refine ⟨w1, ?_, ?_⟩
  · unfold syncColumns
    rw [hdef]
    exact h1
  · rw [h2]
    have : ∀ cs : List Column_Def,
        cs.filter (fun c => decide (¬ Listed ([] : List Row) c.Name)) = cs := by
      intro cs
      apply List.filter_eq_self.2
      intro c _
      simp [Listed]
    rw [this]
    simp

/-- C10 at the failing input: the database holds the table `my-table`, whose
column probe `db.Query` rejects. The handle is nil, `SelectScan` panics on it,
so `getTableDef` does not return and `syncColumns` ends in the panic without
having issued `addColumn` for either desired column. -/
theorem failed_query_panics :
    (fixedDB hyphenMeta none).Query (World.init 0).st (Probe.table_info "my-table")
        = Except.error "near \"-\": syntax error"
      ∧ (getTableDef (fixedDB hyphenMeta none) (World.init 0) "my-table").1 = none
      ∧ (syncColumns (fixedDB hyphenMeta none) (World.init 0) "my-table"
            [⟨0, "", "id", 0, 0, "INTEGER"⟩, ⟨1, "", "note", 0, 0, "TEXT"⟩]).isDone = false
      ∧ (syncColumns (fixedDB hyphenMeta none) (World.init 0) "my-table"
            [⟨0, "", "id", 0, 0, "INTEGER"⟩, ⟨1, "", "note", 0, 0, "TEXT"⟩]).world.issued = [] := by
  refine ⟨rfl, by decide, by decide, by decide⟩

/-! ## The set of existing tables: `getTables` -/

theorem listed_cons (r : Row) (rs : List Row) (m n : String)
    (hr : r.index "name" = Value.text m) :
    Listed (r :: rs) n ↔ m = n ∨ Listed rs n := by
  constructor
  · rintro ⟨x, hx, hxn⟩
    rcases List.mem_cons.1 hx with rfl | hx
    · rw [hr] at hxn; cases hxn; exact Or.inl rfl
    · exact Or.inr ⟨x, hx, hxn⟩
  · rintro (rfl | ⟨x, hx, hxn⟩)
    · exact ⟨r, List.mem_cons_self _ _, hr⟩
    · exact ⟨x, List.mem_cons_of_mem _ hx, hxn⟩

theorem getTables_loop_named :
    ∀ (o : List Row) (tables : TableSet), NamedRows o →
      ∃ ts, getTables.loop o tables = some ts ∧ ∀ n, n ∈ ts ↔ n ∈ tables ∨ Listed o n := by
  intro o
  induction o with
  | nil => intro tables _; exact ⟨tables, rfl, by simp [Listed]⟩
  | cons r rs ih =>
    intro tables h
    obtain ⟨m, hm⟩ := h r (List.mem_cons_self _ _)
    have hrs : NamedRows rs := fun x hx => h x (List.mem_cons_of_mem _ hx)
    obtain ⟨ts, h1, h2⟩ := ih (m :: tables) hrs
    refine ⟨ts, ?_, ?_⟩
    · simp only [getTables.loop, hm, Value.assertString]
      exact h1
    · intro n
      rw [h2, listed_cons r rs m n hm, List.mem_cons]
      constructor
      · rintro ((h | h) | h)
        · exact Or.inr (Or.inl h.symm)
        · exact Or.inl h
        · exact Or.inr (Or.inr h)
      · rintro (h | h | h)
        · exact Or.inl (Or.inr h)
        · exact Or.inl (Or.inl h.symm)
        · exact Or.inr h

/-- C8 (as the code has it): when the table-list query yields rows that all
carry a string `name`, `getTables` returns, and a name is in the returned set
iff some row lists it, names with the prefix `sqlite_` included. -/
theorem getTables_lists_every_name {σ : Type} (db : DB σ) (w : World σ) (o : List Row)
    (hq : SelectScan (dropErr (db.Query w.st Probe.table_list)) = some (Except.ok o))
    (ho : NamedRows o) :
    ∃ tables, (getTables db w).1 = some tables ∧ ∀ n, n ∈ tables ↔ Listed o n := by
  obtain ⟨ts, h1, h2⟩ := getTables_loop_named o [] ho
  refine ⟨ts, ?_, ?_⟩
  · unfold getTables
    simp only [hq]
    exact h1
  · intro n
    rw [h2]
    simp

theorem personMeta_tables (err : Option String) (s : Nat) :
    SelectScan (dropErr ((fixedDB personMeta err).Query s Probe.table_list))
      = some (Except.ok
          [[("strict", Value.integer 0), ("wr", Value.integer 0), ("ncol", Value.integer 1),
            ("type", Value.text "table"), ("name", Value.text "person"),
            ("schema", Value.text "main")],
           [("strict", Value.integer 0), ("wr", Value.integer 0), ("ncol", Value.integer 5),
            ("type", Value.text "table"), ("name", Value.text "sqlite_schema"),
            ("schema", Value.text "main")]]) := by
  rfl

theorem personMeta_tables_named :
    NamedRows
      [[("strict", Value.integer 0), ("wr", Value.integer 0), ("ncol", Value.integer 1),
        ("type", Value.text "table"), ("name", Value.text "person"),
        ("schema", Value.text "main")],
       [("strict", Value.integer 0), ("wr", Value.integer 0), ("ncol", Value.integer 5),
        ("type", Value.text "table"), ("name", Value.text "sqlite_schema"),
        ("schema", Value.text "main")]] := by
  intro r hr
  simp only [List.mem_cons, List.mem_singleton, List.not_mem_nil, or_false] at hr
  rcases hr with rfl | rfl
  · exact ⟨"person", by decide⟩
  · exact ⟨"sqlite_schema", by decide⟩

/-- C8 as amended, on a table list that names `person` and `sqlite_schema`:
the set of `getTables` holds both. -/
theorem getTables_lists_every_name_witness :
    ∃ tables, (getTables (fixedDB personMeta none) (World.init 0)).1 = some tables
      ∧ "sqlite_schema" ∈ tables ∧ "person" ∈ tables := by
  obtain ⟨tables, h1, h2⟩ :=
    getTables_lists_every_name (fixedDB personMeta none) (World.init 0) _
      (personMeta_tables none 0) personMeta_tables_named
  exact ⟨tables, h1, (h2 _).2 (by decide), (h2 _).2 (by decide)⟩

/-- C8 as worded fails: the table list of a database names `sqlite_schema`,
which carries the prefix `sqlite_`, and `getTables` returns it as a member. -/
theorem getTables_keeps_system_tables :
    HasPrefix "sqlite_schema" "sqlite_" = true
      ∧ (getTables (fixedDB personMeta none) (World.init 0)).1
          = some ["sqlite_schema", "person"]
      ∧ "sqlite_schema" ∈ ["sqlite_schema", "person"] := by
  refine ⟨by decide, by decide, by decide⟩

/-! ## The table loop of `syncSchema` -/

theorem selectScan_some (rows : Rows) : ∃ r, SelectScan (some rows) = some r := by
  obtain ⟨columns, scans, err⟩ := rows
  cases columns <;> exact ⟨_, rfl⟩

theorem getTableDef_named {σ : Type} (db : DB σ) (hwf : WellFormed db) (w : World σ)
    (t : String) : ∃ E, (getTableDef db w t).1 = some E ∧ NamedRows E := by
  obtain ⟨⟨rows, hr⟩, hn⟩ := hwf w.st (Probe.table_info t)
  obtain ⟨r, hs⟩ := selectScan_some rows
  have hq : SelectScan (dropErr (db.Query w.st (Probe.table_info t))) = some r := by
    rw [hr]; exact hs
  unfold getTableDef
  simp only [log_st, hq]
  cases r with
  | error e => exact ⟨[], rfl, fun r hr => by cases hr⟩
  | ok o => exact ⟨o, rfl, hn o hq⟩

theorem getTables_issued {σ : Type} (db : DB σ) (w : World σ) :
    (getTables db w).2.issued = w.issued := by
  unfold getTables
  simp only
  generalize SelectScan (dropErr (db.Query w.st Probe.table_list)) = r
  rcases r with _ | _ | _ <;> rfl

theorem getTables_wellFormed {σ : Type} (db : DB σ) (hwf : WellFormed db) (w : World σ) :
    ∃ tables, (getTables db w).1 = some tables := by
  obtain ⟨⟨rows, hr⟩, hn⟩ := hwf w.st Probe.table_list
  obtain ⟨r, hs⟩ := selectScan_some rows
  have hq : SelectScan (dropErr (db.Query w.st Probe.table_list)) = some r := by
    rw [hr]; exact hs
  unfold getTables
  simp only [hq]
  cases r with
  | error e => exact ⟨[], rfl⟩
  | ok o =>
    obtain ⟨ts, h1, _⟩ := getTables_loop_named o [] (hn o hq)
    exact ⟨ts, h1⟩

/-- On a well-formed connection `syncColumns` returns, and what it adds to the
trace are `addColumn` calls for its table and for desired columns. -/
theorem syncColumns_wellFormed {σ : Type} (db : DB σ) (hwf : WellFormed db) (w : World σ)
    (k : String) (v : List Column_Def) :
    ∃ w1 block, syncColumns db w k v = Outcome.done w1 ∧ w1.issued = w.issued ++ block
      ∧ ∀ a ∈ block, ∃ c ∈ v, a = Action.addColumn k c := by
  obtain ⟨E, hE, hn⟩ := getTableDef_named db hwf w k
  obtain ⟨w1, h1, h2⟩ := syncColumns_loop_named db k E hn v (getTableDef db w k).2
  refine ⟨w1, (v.filter (fun c => decide (¬ Listed E c.Name))).map (Action.addColumn k),
    ?_, ?_, ?_⟩
  · rw [syncColumns_of_rows db w k v E hE]
    exact h1
  · rw [h2, getTableDef_issued]
  · intro a ha
    obtain ⟨c, hc, rfl⟩ := List.mem_map.1 ha
    exact ⟨c, (List.mem_filter.1 hc).1, rfl⟩

theorem filter_table_block (k : String) (block : List Action)
    (h : ∀ a ∈ block, a.table = k) :
    block.filter (fun a => decide (a.table = k)) = block := by
  apply List.filter_eq_self.2
  intro a ha
  simp [h a ha]

theorem filter_table_other (k k1 : String) (block : List Action) (hne : k1 ≠ k)
    (h : ∀ a ∈ block, a.table = k1) :
    block.filter (fun a => decide (a.table = k)) = [] := by
  apply List.filter_eq_nil_iff.2
  intro a ha
  simp [h a ha, hne]

/-- The table loop on a well-formed connection: it returns; a table outside
the remaining schema gets no statement; a table of the remaining schema gets
one block of statements, `createTable` alone when it does not exist and the
diff of `syncColumns` when it does. -/
theorem syncSchema_loop_blocks {σ : Type} (db : DB σ) (hwf : WellFormed db)
    (tables : TableSet) :
    ∀ (schema : Schema) (w : World σ), NodupKeys schema →
      ∃ wf, syncSchema.loop db tables schema w = Outcome.done wf
        ∧ (∀ k, k ∉ schema.map Prod.fst → issuedFor wf k = issuedFor w k)
        ∧ ∀ k v, (k, v) ∈ schema →
            (k ∉ tables → issuedFor wf k = issuedFor w k ++ [Action.createTable k v])
            ∧ (k ∈ tables →
                ∃ w0 w1, syncColumns db w0 k v = Outcome.done w1
                  ∧ w1.issued = w0.issued ++ (issuedFor wf k).drop (issuedFor w k).length
                  ∧ (issuedFor wf k).take (issuedFor w k).length = issuedFor w k
                  ∧ ∀ a ∈ (issuedFor wf k).drop (issuedFor w k).length,
                      ∃ c ∈ v, a = Action.addColumn k c) := by
  intro schema
  induction schema with
  | nil =>
    intro w _
    exact ⟨w, rfl, fun _ _ => rfl, fun k v h => by cases h⟩
  | cons kv rest ih =>
    obtain ⟨k1, v1⟩ := kv
    intro w hnd
    have hnd' : NodupKeys rest := (List.nodup_cons.1 hnd).2
    have hk1 : k1 ∉ rest.map Prod.fst := (List.nodup_cons.1 hnd).1
    by_cases hex : k1 ∈ tables
    · obtain ⟨w1, block, hs, hi, hb⟩ := syncColumns_wellFormed db hwf w k1 v1
      obtain ⟨wf, hf, hout, hin⟩ := ih w1 hnd'
      have htable : ∀ a ∈ block, a.table = k1 := by
        intro a ha
        obtain ⟨c, _, rfl⟩ := hb a ha
        rfl
      have hw1 : ∀ k, issuedFor w1 k
          = issuedFor w k ++ block.filter (fun a => decide (a.table = k)) := by
        intro k
        simp [issuedFor, hi]
      refine ⟨wf, ?_, ?_, ?_⟩
      · simp only [syncSchema.loop, hex, not_true_eq_false, if_false, hs]
        exact hf
      · intro k hk
        have hne : k1 ≠ k := fun h => hk (by simp [h])
        have hk' : k ∉ rest.map Prod.fst := fun h => hk (List.mem_cons_of_mem _ h)
        rw [hout k hk', hw1, filter_table_other k k1 block hne htable]
        simp
      · intro k v hkv
        rcases List.mem_cons.1 hkv with heq | hmem
        · cases heq
          refine ⟨fun h => absurd hex h, fun _ => ?_⟩
          have hfk : issuedFor wf k1 = issuedFor w k1 ++ block := by
            rw [hout k1 hk1, hw1, filter_table_block k1 block htable]
          refine ⟨w, w1, hs, ?_, ?_, ?_⟩
          · rw [hi, hfk]; simp
          · rw [hfk]; simp
          · rw [hfk]; simpa using hb
        · have hne : k1 ≠ k := by
            intro h
            apply hk1
            rw [h]
            exact List.mem_map.2 ⟨(k, v), hmem, rfl⟩
          have hsame : issuedFor w1 k = issuedFor w k := by
            rw [hw1, filter_table_other k k1 block hne htable]
            simp
          have := hin k v hmem
          rw [hsame] at this
          exact this
    · obtain ⟨wf, hf, hout, hin⟩ := ih (createTable db w k1 v1) hnd'
      have hw1 : ∀ k, issuedFor (createTable db w k1 v1) k
          = issuedFor w k
            ++ [Action.createTable k1 v1].filter (fun a => decide (a.table = k)) := by
        intro k
        simp [issuedFor, createTable_issued]
      have htable : ∀ a ∈ [Action.createTable k1 v1], a.table = k1 := by
        intro a ha
        rw [List.mem_singleton.1 ha]
        rfl
      refine ⟨wf, ?_, ?_, ?_⟩
      · simp only [syncSchema.loop, hex, not_false_eq_true, if_true]
        exact hf
      · intro k hk
        have hne : k1 ≠ k := fun h => hk (by simp [h])
        have hk' : k ∉ rest.map Prod.fst := fun h => hk (List.mem_cons_of_mem _ h)
        rw [hout k hk', hw1, filter_table_other k k1 _ hne htable]
        simp
      · intro k v hkv
        rcases List.mem_cons.1 hkv with heq | hmem
        · cases heq
          refine ⟨fun _ => ?_, fun h => absurd h hex⟩
          rw [hout k1 hk1, hw1, filter_table_block k1 _ htable]
        · have hne : k1 ≠ k := by
            intro h
            apply hk1
            rw [h]
            exact List.mem_map.2 ⟨(k, v), hmem, rfl⟩
          have hsame : issuedFor (createTable db w k1 v1) k = issuedFor w k := by
            rw [hw1, filter_table_other k k1 _ hne htable]
            simp
          have := hin k v hmem
          rw [hsame] at this
          exact this

/-- On a connection whose queries all yield a handle and whose rows all carry
a string `name`, and for a schema with distinct keys, the sync loop returns,
and for every desired table `k` with columns `v`: if `k` is not in the set of
`getTables`, the statements about `k` are the one `createTable k v`; if `k` is
in the set, the statements about `k` are what one call of `syncColumns` for `k`
and `v` issues, all of them `addColumn` for columns of `v`. -/
theorem syncSchema_blocks {σ : Type} (db : DB σ) (hwf : WellFormed db)
    (schema : Schema) (hnd : NodupKeys schema) (s : σ) :
    ∃ tables wf, (getTables db (World.init s)).1 = some tables
      ∧ syncSchema db schema (World.init s) = Outcome.done wf
      ∧ ∀ k v, (k, v) ∈ schema →
          (k ∉ tables → issuedFor wf k = [Action.createTable k v])
          ∧ (k ∈ tables →
              (∃ w0 w1, syncColumns db w0 k v = Outcome.done w1
                ∧ w1.issued = w0.issued ++ issuedFor wf k)
              ∧ ∀ a ∈ issuedFor wf k, ∃ c ∈ v, a = Action.addColumn k c) := by
  obtain ⟨tables, ht⟩ := getTables_wellFormed db hwf (World.init s)
  obtain ⟨wf, hf, _, hin⟩ :=
    syncSchema_loop_blocks db hwf tables schema (getTables db (World.init s)).2 hnd
  have hnil : ∀ k, issuedFor (getTables db (World.init s)).2 k = [] := by
    intro k
    have : (getTables db (World.init s)).2.issued = [] := by
      rw [getTables_issued]; rfl
    simp [issuedFor, this]
  refine ⟨tables, wf, ht, ?_, ?_⟩
  · unfold syncSchema
    generalize hg : getTables db (World.init s) = g at ht hf
    obtain ⟨g1, g2⟩ := g
    simp only at ht
    subst ht
    exact hf
  · intro k v hkv
    obtain ⟨hnew, hold⟩ := hin k v hkv
    refine ⟨fun h => ?_, fun h => ?_⟩
    · have := hnew h
      rw [hnil] at this
      simpa using this
    · obtain ⟨w0, w1, h1, h2, _, h4⟩ := hold h
      rw [hnil] at h2 h4
      simp only [List.length_nil, List.drop_zero] at h2 h4
      exact ⟨⟨w0, w1, h1, h2⟩, h4⟩

theorem personMeta_wellFormed (err : Option String) : WellFormed (fixedDB personMeta err) := by
  intro s q
  cases q with
  | table_list =>
    refine ⟨⟨_, rfl⟩, ?_⟩
    intro o ho
    have h2 := personMeta_tables err s
    rw [ho] at h2
    have h3 := Except.ok.inj (Option.some.inj h2)
    rw [h3]
    exact personMeta_tables_named
  | table_info t =>
    refine ⟨⟨_, rfl⟩, ?_⟩
    intro o ho
    have h2 : SelectScan (dropErr ((fixedDB personMeta err).Query s (Probe.table_info t)))
        = some (Except.ok [[("pk", Value.integer 0), ("dflt_value", Value.null),
            ("notnull", Value.integer 0), ("type", Value.text "INTEGER"),
            ("name", Value.text "age"), ("cid", Value.integer 0)]]) := rfl
    rw [ho] at h2
    have h3 := Except.ok.inj (Option.some.inj h2)
    rw [h3]
    exact personMeta_named

/-- The database `person(age)` against the schema `person(age, nick)`,
`pet(id)`: one `createTable` for `pet`, only `addColumn` for `person`. -/
theorem syncSchema_blocks_person :
    ∃ tables wf, (getTables (fixedDB personMeta none) (World.init 0)).1 = some tables
      ∧ syncSchema (fixedDB personMeta none) petSchema (World.init 0) = Outcome.done wf
      ∧ "pet" ∉ tables
      ∧ issuedFor wf "pet" = [Action.createTable "pet" [⟨0, "", "id", 0, 1, "INTEGER"⟩]]
      ∧ "person" ∈ tables
      ∧ ∀ a ∈ issuedFor wf "person",
          ∃ c ∈ [(⟨0, "", "age", 0, 0, "INTEGER"⟩ : Column_Def), ⟨1, "", "nick", 0, 0, "TEXT"⟩],
            a = Action.addColumn "person" c := by
  obtain ⟨tables, wf, h1, h2, h3⟩ :=
    syncSchema_blocks (fixedDB personMeta none) (personMeta_wellFormed none)
      petSchema (by decide) 0
  have ht : tables = ["sqlite_schema", "person"] := by
    have h4 : (getTables (fixedDB personMeta none) (World.init 0)).1
        = some ["sqlite_schema", "person"] := by decide
    rw [h1] at h4
    exact Option.some.inj h4
  subst ht
  refine ⟨_, wf, h1, h2, by decide, ?_, by decide, ?_⟩
  · exact (h3 "pet" _ (by simp [petSchema])).1 (by decide)
  · exact ((h3 "person" _ (by simp [petSchema])).2 (by decide)).2

/-- C5 at the failing input: the database holds `my-table`, the schema wants
`my-table(id, note)` and the new table `pet(id)`, and the loop visits
`my-table` first. `pet` is not in the set of `getTables`, yet the run ends in
the panic of the column probe of `my-table` and issues nothing: no
`createTable` for `pet`. -/
theorem failed_query_stops_the_loop :
    NodupKeys hyphenSchema
      ∧ (getTables (fixedDB hyphenMeta none) (World.init 0)).1
          = some ["sqlite_schema", "my-table"]
      ∧ "pet" ∉ ["sqlite_schema", "my-table"]
      ∧ (syncSchema (fixedDB hyphenMeta none) hyphenSchema (World.init 0)).isDone = false
      ∧ (syncSchema (fixedDB hyphenMeta none) hyphenSchema (World.init 0)).world.issued = []
      ∧ issuedFor (syncSchema (fixedDB hyphenMeta none) hyphenSchema (World.init 0)).world "pet"
          ≠ [Action.createTable "pet" [⟨0, "", "id", 0, 1, "INTEGER"⟩]] := by
  refine ⟨by decide, by decide, by decide, by decide, by decide, by decide⟩

/-! ## Failing statements do not stop the run -/

theorem syncColumns_loop_lockstep {σ τ : Type} (db1 : DB σ) (db2 : DB τ) (t : String)
    (dbtable : List Row) :
    ∀ (cs : List Column_Def) (w1 : World σ) (w2 : World τ), w1.issued = w2.issued →
      (syncColumns.loop db1 t dbtable cs w1).isDone
          = (syncColumns.loop db2 t dbtable cs w2).isDone
        ∧ (syncColumns.loop db1 t dbtable cs w1).world.issued
          = (syncColumns.loop db2 t dbtable cs w2).world.issued := by
  intro cs
  induction cs with
  | nil => intro w1 w2 h; exact ⟨rfl, h⟩
  | cons c cs ih =>
    intro w1 w2 h
    simp only [syncColumns.loop]
    cases hc : hasColumn dbtable c with
    | none => exact ⟨rfl, h⟩
    | some b =>
      cases b with
      | true => exact ih w1 w2 h
      | false =>
        apply ih
        rw [addColumn_issued, addColumn_issued, h]

theorem syncColumns_eq {σ : Type} (db : DB σ) (w : World σ) (t : String)
    (v : List Column_Def) :
    syncColumns db w t v
      = (match (getTableDef db w t).1 with
          | none => Outcome.panicked (getTableDef db w t).2
          | some E => syncColumns.loop db t E v (getTableDef db w t).2) := by
  unfold syncColumns
  generalize getTableDef db w t = g
  obtain ⟨g1, g2⟩ := g
  cases g1 <;> rfl

theorem getTableDef_fixed {σ : Type} (db : DB σ) (catalog : Probe → Except String Rows)
    (h : ∀ s q, db.Query s q = catalog q) (w : World σ) (t : String) :
    (getTableDef db w t).1
      = (match SelectScan (dropErr (catalog (Probe.table_info t))) with
          | none => none
          | some (Except.ok oo) => some oo
          | some (Except.error _) => some []) := by
  unfold getTableDef
  simp only [log_st, h]
  generalize SelectScan (dropErr (catalog (Probe.table_info t))) = r
  rcases r with _ | _ | _ <;> rfl

theorem syncColumns_lockstep {σ τ : Type} (db1 : DB σ) (db2 : DB τ)
    (catalog : Probe → Except String Rows)
    (h1 : ∀ s q, db1.Query s q = catalog q) (h2 : ∀ s q, db2.Query s q = catalog q)
    (t : String) (cs : List Column_Def) (w1 : World σ) (w2 : World τ)
    (h : w1.issued = w2.issued) :
    (syncColumns db1 w1 t cs).isDone = (syncColumns db2 w2 t cs).isDone
      ∧ (syncColumns db1 w1 t cs).world.issued = (syncColumns db2 w2 t cs).world.issued := by
  have hi : (getTableDef db1 w1 t).2.issued = (getTableDef db2 w2 t).2.issued := by
    rw [getTableDef_issued, getTableDef_issued, h]
  rw [syncColumns_eq, syncColumns_eq, getTableDef_fixed db1 catalog h1,
    getTableDef_fixed db2 catalog h2]
  generalize (match SelectScan (dropErr (catalog (Probe.table_info t))) with
    | none => none
    | some (Except.ok oo) => some oo
    | some (Except.error _) => some []) = r
  cases r with
  | none => exact ⟨rfl, hi⟩
  | some E => exact syncColumns_loop_lockstep db1 db2 t E cs _ _ hi

theorem syncSchema_loop_lockstep {σ τ : Type} (db1 : DB σ) (db2 : DB τ)
    (catalog : Probe → Except String Rows)
    (h1 : ∀ s q, db1.Query s q = catalog q) (h2 : ∀ s q, db2.Query s q = catalog q)
    (tables : TableSet) :
    ∀ (schema : Schema) (w1 : World σ) (w2 : World τ), w1.issued = w2.issued →
      (syncSchema.loop db1 tables schema w1).isDone
          = (syncSchema.loop db2 tables schema w2).isDone
        ∧ (syncSchema.loop db1 tables schema w1).world.issued
          = (syncSchema.loop db2 tables schema w2).world.issued := by
  intro schema
  induction schema with
  | nil => intro w1 w2 h; exact ⟨rfl, h⟩
  | cons kv rest ih =>
    obtain ⟨k, v⟩ := kv
    intro w1 w2 h
    simp only [syncSchema.loop]
    by_cases hex : k ∈ tables
    · simp only [hex, not_true_eq_false, if_false]
      obtain ⟨hd, hi⟩ := syncColumns_lockstep db1 db2 catalog h1 h2 k v w1 w2 h
      cases hs1 : syncColumns db1 w1 k v with
      | done a =>
        cases hs2 : syncColumns db2 w2 k v with
        | done b =>
          rw [hs1, hs2] at hi
          exact ih a b hi
        | panicked b => rw [hs1, hs2] at hd; cases hd
      | panicked a =>
        cases hs2 : syncColumns db2 w2 k v with
        | done b => rw [hs1, hs2] at hd; cases hd
        | panicked b =>
          rw [hs1, hs2] at hi
          exact ⟨rfl, hi⟩
    · simp only [hex, not_false_eq_true, if_true]
      apply ih
      rw [createTable_issued, createTable_issued, h]

theorem getTables_fixed {σ : Type} (db : DB σ) (catalog : Probe → Except String Rows)
    (h : ∀ s q, db.Query s q = catalog q) (w : World σ) :
    (getTables db w).1
      = (match SelectScan (dropErr (catalog Probe.table_list)) with
          | none => none
          | some (Except.error _) => some []
          | some (Except.ok o) => getTables.loop o []) := by
  unfold getTables
  simp only [h]
  generalize SelectScan (dropErr (catalog Probe.table_list)) = r
  rcases r with _ | _ | _ <;> rfl

theorem syncSchema_lockstep {σ τ : Type} (db1 : DB σ) (db2 : DB τ)
    (catalog : Probe → Except String Rows)
    (h1 : ∀ s q, db1.Query s q = catalog q) (h2 : ∀ s q, db2.Query s q = catalog q)
    (schema : Schema) (w1 : World σ) (w2 : World τ) (h : w1.issued = w2.issued) :
    (syncSchema db1 schema w1).isDone = (syncSchema db2 schema w2).isDone
      ∧ (syncSchema db1 schema w1).world.issued = (syncSchema db2 schema w2).world.issued := by
  have ht := getTables_fixed db1 catalog h1 w1
  have ht2 := getTables_fixed db2 catalog h2 w2
  have hi : (getTables db1 w1).2.issued = (getTables db2 w2).2.issued := by
    rw [getTables_issued, getTables_issued, h]
  unfold syncSchema
  generalize getTables db1 w1 = g1 at ht hi
  generalize getTables db2 w2 = g2 at ht2 hi
  obtain ⟨t1, u1⟩ := g1
  obtain ⟨t2, u2⟩ := g2
  simp only at ht ht2 hi
  rw [← ht2] at ht
  subst ht
  clear ht2
  cases t1 with
  | none => exact ⟨rfl, hi⟩
  | some tables => exact syncSchema_loop_lockstep db1 db2 catalog h1 h2 tables schema u1 u2 hi

theorem addColumn_logs {σ : Type} (db : DB σ) (w : World σ) (t : String) (c : Column_Def)
    (e : String) (h : (db.Exec w.st (Action.addColumn t c)).2 = some e) :
    e ∈ (addColumn db w t c).logged := by
  unfold addColumn
  simp [h, World.log]

theorem createTable_logs {σ : Type} (db : DB σ) (w : World σ) (t : String)
    (v : List Column_Def) (e : String)
    (h : (db.Exec w.st (Action.createTable t v)).2 = some e) :
    e ∈ (createTable db w t v).logged := by
  unfold createTable
  simp only [log_st]
  simp [h, World.log]

/-- C9: take two connections that answer the metadata queries alike (`catalog`)
and whose statements fail in any way whatsoever. For every desired schema the
two runs issue the same statements in the same order and end alike (both
return or both panic); and on any connection a failing `addColumn` or
`createTable` logs its error and returns to its caller. -/
theorem failure_does_not_halt {σ τ : Type} (db1 : DB σ) (db2 : DB τ)
    (catalog : Probe → Except String Rows)
    (h1 : ∀ s q, db1.Query s q = catalog q) (h2 : ∀ s q, db2.Query s q = catalog q)
    (schema : Schema) (s1 : σ) (s2 : τ) :
    (syncSchema db1 schema (World.init s1)).world.issued
        = (syncSchema db2 schema (World.init s2)).world.issued
      ∧ (syncSchema db1 schema (World.init s1)).isDone
        = (syncSchema db2 schema (World.init s2)).isDone
      ∧ (∀ (w : World σ) (t : String) (c : Column_Def) (e : String),
          (db1.Exec w.st (Action.addColumn t c)).2 = some e →
            e ∈ (addColumn db1 w t c).logged
              ∧ (addColumn db1 w t c).issued = w.issued ++ [Action.addColumn t c])
      ∧ ∀ (w : World σ) (t : String) (v : List Column_Def) (e : String),
          (db1.Exec w.st (Action.createTable t v)).2 = some e →
            e ∈ (createTable db1 w t v).logged
              ∧ (createTable db1 w t v).issued = w.issued ++ [Action.createTable t v] := by
  obtain ⟨hd, hi⟩ :=
    syncSchema_lockstep db1 db2 catalog h1 h2 schema (World.init s1) (World.init s2) rfl
  exact ⟨hi, hd,
    fun w t c e h => ⟨addColumn_logs db1 w t c e h, addColumn_issued db1 w t c⟩,
    fun w t v e h => ⟨createTable_logs db1 w t v e h, createTable_issued db1 w t v⟩⟩

/-- C9 on the database `person(age)`: the run in which every statement fails
issues the same two statements, with the same text, as the run in which none
fails. -/
theorem failure_does_not_halt_witness :
    (syncSchema (fixedDB personMeta (some "disk I/O error"))
        [("person", [⟨0, "", "age", 0, 0, "INTEGER"⟩, ⟨1, "", "nick", 0, 0, "TEXT"⟩]),
         ("pet", [⟨0, "", "id", 0, 1, "INTEGER"⟩])] (World.init 0)).world.issued
      = (syncSchema (fixedDB personMeta none)
        [("person", [⟨0, "", "age", 0, 0, "INTEGER"⟩, ⟨1, "", "nick", 0, 0, "TEXT"⟩]),
         ("pet", [⟨0, "", "id", 0, 1, "INTEGER"⟩])] (World.init 0)).world.issued
      ∧ (syncSchema (fixedDB personMeta (some "disk I/O error"))
        [("person", [⟨0, "", "age", 0, 0, "INTEGER"⟩, ⟨1, "", "nick", 0, 0, "TEXT"⟩]),
         ("pet", [⟨0, "", "id", 0, 1, "INTEGER"⟩])] (World.init 0)).world.issued
        = [Action.addColumn "person" ⟨1, "", "nick", 0, 0, "TEXT"⟩,
           Action.createTable "pet" [⟨0, "", "id", 0, 1, "INTEGER"⟩]]
      ∧ (syncSchema (fixedDB personMeta (some "disk I/O error"))
        [("person", [⟨0, "", "age", 0, 0, "INTEGER"⟩, ⟨1, "", "nick", 0, 0, "TEXT"⟩]),
         ("pet", [⟨0, "", "id", 0, 1, "INTEGER"⟩])] (World.init 0)).world.issued.map Action.text
        = ["alter table \"person\" add column \"nick\" TEXT",
           "create table \"pet\" (\"id\" INTEGER, primary key (\"id\"))"] :=
  ⟨(failure_does_not_halt (fixedDB personMeta (some "disk I/O error"))
      (fixedDB personMeta none) personMeta (fun _ _ => rfl) (fun _ _ => rfl)
      [("person", [⟨0, "", "age", 0, 0, "INTEGER"⟩, ⟨1, "", "nick", 0, 0, "TEXT"⟩]),
       ("pet", [⟨0, "", "id", 0, 1, "INTEGER"⟩])] 0 0).1,
   by decide, by decide⟩

/-! ## The abstract engine -/

theorem selectScan_loop_nameRows :
    ∀ (names : List String) (results : List Row),
      SelectScan.loop ["name"] none (names.map (fun n => Except.ok [Value.text n])) results
        = Except.ok (results ++ absRows names) := by
  intro names
  induction names with
  | nil => intro results; simp [SelectScan.loop, absRows]
  | cons n ns ih =>
    intro results
    simp only [List.map_cons, SelectScan.loop]
    rw [ih]
    simp [absRows, SelectScan.dest, Row.set]

theorem selectScan_nameRows (names : List String) :
    SelectScan (some (nameRows names)) = some (Except.ok (absRows names)) := by
  unfold SelectScan nameRows
  simp only
  rw [selectScan_loop_nameRows]
  simp

theorem absRows_named (names : List String) : NamedRows (absRows names) := by
  intro r hr
  obtain ⟨n, _, rfl⟩ := List.mem_map.1 hr
  exact ⟨n, by simp [Row.index, List.lookup]⟩

theorem absRows_listed (names : List String) (n : String) :
    Listed (absRows names) n ↔ n ∈ names := by
  constructor
  · rintro ⟨r, hr, hn⟩
    obtain ⟨m, hm, rfl⟩ := List.mem_map.1 hr
    have : m = n := by simpa [Row.index, List.lookup] using hn
    exact this ▸ hm
  · intro h
    exact ⟨[("name", Value.text n)], List.mem_map.2 ⟨n, h, rfl⟩, by simp [Row.index, List.lookup]⟩

theorem absDB_wellFormed (fails : Nat → Action → Bool) : WellFormed (absDB fails) := by
  intro s q
  cases q with
  | table_list =>
    refine ⟨⟨_, rfl⟩, ?_⟩
    intro o ho
    have h2 : SelectScan (dropErr ((absDB fails).Query s Probe.table_list)) = _ :=
      selectScan_nameRows s.names
    rw [ho] at h2
    rw [Except.ok.inj (Option.some.inj h2)]
    exact absRows_named _
  | table_info t =>
    refine ⟨⟨_, rfl⟩, ?_⟩
    intro o ho
    have h2 : SelectScan (dropErr ((absDB fails).Query s (Probe.table_info t))) = _ :=
      selectScan_nameRows (if t ∈ s.names then s.cols t else [])
    rw [ho] at h2
    rw [Except.ok.inj (Option.some.inj h2)]
    exact absRows_named _

theorem absDB_getTables (fails : Nat → Action → Bool) (w : World AbsState) :
    ∃ tables, getTables (absDB fails) w = (some tables, w) ∧ ∀ n, n ∈ tables ↔ n ∈ w.st.names := by
  obtain ⟨ts, h1, h2⟩ := getTables_loop_named (absRows w.st.names) [] (absRows_named _)
  refine ⟨ts, ?_, ?_⟩
  · unfold getTables
    have : SelectScan (dropErr ((absDB fails).Query w.st Probe.table_list)) = _ :=
      selectScan_nameRows w.st.names
    simp only [this, h1]
  · intro n
    rw [h2, absRows_listed]
    simp

theorem absDB_getTableDef (fails : Nat → Action → Bool) (w : World AbsState) (t : String) :
    getTableDef (absDB fails) w t
      = (some (absRows (if t ∈ w.st.names then w.st.cols t else [])),
          w.log ("table name " ++ t)) := by
  unfold getTableDef
  have : SelectScan (dropErr ((absDB fails).Query w.st (Probe.table_info t))) = _ :=
    selectScan_nameRows (if t ∈ w.st.names then w.st.cols t else [])
  simp only [log_st, this]

theorem extends_refl (D : AbsState) : Extends D D :=
  ⟨fun _ h => h, fun _ _ _ h => h⟩

theorem extends_trans {D E F : AbsState} (h1 : Extends D E) (h2 : Extends E F) :
    Extends D F :=
  ⟨fun _ h => h2.1 (h1.1 h), fun t ht _ h => h2.2 t (h1.1 ht) (h1.2 t ht h)⟩

theorem sameAt_refl (x : String) (D : AbsState) : SameAt x D D := ⟨Iff.rfl, rfl⟩

theorem sameAt_trans {x : String} {D E F : AbsState} (h1 : SameAt x D E)
    (h2 : SameAt x E F) : SameAt x D F :=
  ⟨h2.1.trans h1.1, h2.2.trans h1.2⟩

theorem absExec_extends (fails : Nat → Action → Bool) (D : AbsState) (a : Action) :
    Extends D (absExec fails D a).1 := by
  unfold absExec
  by_cases hf : fails D.execs a = true
  · simp only [hf, if_true]; exact extends_refl D
  · simp only [hf]
    cases a with
    | createTable t schema =>
      by_cases ht : t ∈ D.names
      · simp only [ht, if_true]; exact extends_refl D
      · simp only [ht, if_false]
        refine ⟨fun x hx => List.mem_append_left _ hx, ?_⟩
        intro x hx
        have : x ≠ t := fun h => ht (h ▸ hx)
        simp [this]
    | addColumn t c =>
      by_cases ht : t ∈ D.names
      · simp only [ht, if_true]
        refine ⟨fun x hx => hx, ?_⟩
        intro x hx
        by_cases hxt : x = t
        · subst hxt; simp
        · simp [hxt]
      · simp only [ht, if_false]; exact extends_refl D

theorem absExec_sameAt (fails : Nat → Action → Bool) (D : AbsState) (a : Action)
    (x : String) (hx : x ≠ a.table) : SameAt x D (absExec fails D a).1 := by
  unfold absExec
  by_cases hf : fails D.execs a = true
  · simp only [hf, if_true]; exact sameAt_refl x D
  · simp only [hf]
    cases a with
    | createTable t schema =>
      have hxt : x ≠ t := hx
      by_cases ht : t ∈ D.names
      · simp only [ht, if_true]; exact sameAt_refl x D
      · simp only [ht, if_false]
        refine ⟨?_, ?_⟩
        · simp [hxt]
        · simp [hxt]
    | addColumn t c =>
      have hxt : x ≠ t := hx
      by_cases ht : t ∈ D.names
      · simp only [ht, if_true]
        exact ⟨Iff.rfl, by simp [hxt]⟩
      · simp only [ht, if_false]; exact sameAt_refl x D

theorem absExec_createTable_ok (fails : Nat → Action → Bool) (D : AbsState) (t : String)
    (v : List Column_Def) (h : (absExec fails D (Action.createTable t v)).2 = none) :
    t ∈ (absExec fails D (Action.createTable t v)).1.names
      ∧ (absExec fails D (Action.createTable t v)).1.cols t = v.map Column_Def.Name := by
  unfold absExec at h ⊢
  by_cases hf : fails D.execs (Action.createTable t v) = true
  · simp [hf] at h
  · by_cases ht : t ∈ D.names
    · simp [hf, ht] at h
    · simp [hf, ht]

theorem absExec_addColumn_ok (fails : Nat → Action → Bool) (D : AbsState) (t : String)
    (c : Column_Def) (h : (absExec fails D (Action.addColumn t c)).2 = none) :
    t ∈ (absExec fails D (Action.addColumn t c)).1.names
      ∧ c.Name ∈ (absExec fails D (Action.addColumn t c)).1.cols t := by
  unfold absExec at h ⊢
  by_cases hf : fails D.execs (Action.addColumn t c) = true
  · simp [hf] at h
  · by_cases ht : t ∈ D.names
    · simp [hf, ht]
    · simp [hf, ht] at h

/-- The column loop on the abstract engine: what it adds to the trace, how
the state grows, and that the desired columns are all there once every
statement has succeeded. -/
theorem absDB_syncColumns_loop (fails : Nat → Action → Bool) (t : String)
    (dbtable : List Row) (hn : NamedRows dbtable) :
    ∀ (cs : List Column_Def) (w : World AbsState),
      ∃ w1 ext, syncColumns.loop (absDB fails) t dbtable cs w = Outcome.done w1
        ∧ w1.trace = w.trace ++ ext
        ∧ Extends w.st w1.st
        ∧ (∀ x, x ≠ t → SameAt x w.st w1.st)
        ∧ (∀ p ∈ ext, ∃ c ∈ cs, p.1 = Action.addColumn t c ∧ ¬ Listed dbtable c.Name)
        ∧ ((∀ p ∈ ext, p.2 = none) →
            ∀ c ∈ cs, Listed dbtable c.Name ∨ c.Name ∈ w1.st.cols t) := by
  intro cs
  induction cs with
  | nil =>
    intro w
    refine ⟨w, [], rfl, by simp, extends_refl _, fun x _ => sameAt_refl x _, ?_, ?_⟩
    · intro p hp; cases hp
    · intro _ c hc; cases hc
  | cons c cs ih =>
    intro w
    simp only [syncColumns.loop, hasColumn_named dbtable c hn]
    by_cases hl : Listed dbtable c.Name
    · obtain ⟨w1, ext, h1, h2, h3, h4, h5, h6⟩ := ih w
      refine ⟨w1, ext, by simp [hl, h1], h2, h3, h4, ?_, ?_⟩
      · intro p hp
        obtain ⟨c1, hc1, hp1⟩ := h5 p hp
        exact ⟨c1, List.mem_cons_of_mem _ hc1, hp1⟩
      · intro hall c1 hc1
        rcases List.mem_cons.1 hc1 with rfl | hc1
        · exact Or.inl hl
        · exact h6 hall c1 hc1
    · obtain ⟨w1, ext, h1, h2, h3, h4, h5, h6⟩ := ih (addColumn (absDB fails) w t c)
      have hst : (addColumn (absDB fails) w t c).st
          = (absExec fails w.st (Action.addColumn t c)).1 := addColumn_st _ w t c
      have htr : (addColumn (absDB fails) w t c).trace
          = w.trace ++ [(Action.addColumn t c, (absExec fails w.st (Action.addColumn t c)).2)] :=
        addColumn_trace _ w t c
      rw [hst] at h3 h4
      refine ⟨w1, (Action.addColumn t c, (absExec fails w.st (Action.addColumn t c)).2) :: ext,
        by simp [hl, h1], ?_, ?_, ?_, ?_, ?_⟩
      · rw [h2, htr]; simp
      · exact extends_trans (absExec_extends fails w.st _) h3
      · intro x hx
        exact sameAt_trans (absExec_sameAt fails w.st (Action.addColumn t c) x hx) (h4 x hx)
      · intro p hp
        rcases List.mem_cons.1 hp with rfl | hp
        · exact ⟨c, List.mem_cons_self _ _, rfl, hl⟩
        · obtain ⟨c1, hc1, hp1⟩ := h5 p hp
          exact ⟨c1, List.mem_cons_of_mem _ hc1, hp1⟩
      · intro hall c1 hc1
        rcases List.mem_cons.1 hc1 with rfl | hc1
        · have hok := absExec_addColumn_ok fails w.st t c1
            (hall _ (List.mem_cons_self _ _))
          exact Or.inr (h3.2 t hok.1 hok.2)
        · exact h6 (fun p hp => hall p (List.mem_cons_of_mem _ hp)) c1 hc1

/-- One existing table on the abstract engine. -/
theorem absDB_syncColumns (fails : Nat → Action → Bool) (w : World AbsState) (t : String)
    (v : List Column_Def) (ht : t ∈ w.st.names) :
    ∃ w1 ext, syncColumns (absDB fails) w t v = Outcome.done w1
      ∧ w1.trace = w.trace ++ ext
      ∧ Extends w.st w1.st
      ∧ (∀ x, x ≠ t → SameAt x w.st w1.st)
      ∧ (∀ p ∈ ext, ∃ c ∈ v, p.1 = Action.addColumn t c ∧ c.Name ∉ w.st.cols t)
      ∧ ((∀ p ∈ ext, p.2 = none) → ∀ c ∈ v, c.Name ∈ w1.st.cols t) := by
  have hdef := absDB_getTableDef fails w t
  simp only [ht, if_true] at hdef
  obtain ⟨w1, ext, h1, h2, h3, h4, h5, h6⟩ :=
    absDB_syncColumns_loop fails t (absRows (w.st.cols t)) (absRows_named _) v
      (w.log ("table name " ++ t))
  refine ⟨w1, ext, ?_, h2, h3, h4, ?_, ?_⟩
  · unfold syncColumns
    rw [hdef]
    exact h1
  · intro p hp
    obtain ⟨c, hc, hp1, hp2⟩ := h5 p hp
    exact ⟨c, hc, hp1, fun h => hp2 ((absRows_listed _ _).2 h)⟩
  · intro hall c hc
    rcases h6 hall c hc with h | h
    · exact h3.2 t ht ((absRows_listed _ _).1 h)
    · exact h

/-- The table loop on the abstract engine. -/
theorem absDB_syncSchema_loop (fails : Nat → Action → Bool) (tables : TableSet) :
    ∀ (rest : Schema) (w : World AbsState), NodupKeys rest →
      (∀ k ∈ rest.map Prod.fst, (k ∈ tables ↔ k ∈ w.st.names)) →
      ∃ wf ext, syncSchema.loop (absDB fails) tables rest w = Outcome.done wf
        ∧ wf.trace = w.trace ++ ext
        ∧ Extends w.st wf.st
        ∧ (∀ x, x ∉ rest.map Prod.fst → SameAt x w.st wf.st)
        ∧ (∀ p ∈ ext,
            (∃ k v, (k, v) ∈ rest ∧ p.1 = Action.createTable k v ∧ k ∉ tables)
            ∨ (∃ k v c, (k, v) ∈ rest ∧ c ∈ v ∧ p.1 = Action.addColumn k c ∧ k ∈ tables
                ∧ c.Name ∉ w.st.cols k))
        ∧ ((∀ p ∈ ext, p.2 = none) →
            ∀ k v, (k, v) ∈ rest → k ∈ wf.st.names ∧ ∀ c ∈ v, c.Name ∈ wf.st.cols k) := by
  intro rest
  induction rest with
  | nil =>
    intro w _ _
    refine ⟨w, [], rfl, by simp, extends_refl _, fun x _ => sameAt_refl x _, ?_, ?_⟩
    · intro p hp; cases hp
    · intro _ k v hkv; cases hkv
  | cons kv rest ih =>
    obtain ⟨k1, v1⟩ := kv
    intro w hnd htab
    have hnd' : NodupKeys rest := (List.nodup_cons.1 hnd).2
    have hk1 : k1 ∉ rest.map Prod.fst := (List.nodup_cons.1 hnd).1
    have hne : ∀ k v, (k, v) ∈ rest → k ≠ k1 := by
      intro k v hkv h
      apply hk1
      rw [← h]
      exact List.mem_map.2 ⟨(k, v), hkv, rfl⟩
    have hstep : ∀ (w1 : World AbsState) (ext1 : List (Action × Option String)),
        syncSchema.loop (absDB fails) tables ((k1, v1) :: rest) w
          = syncSchema.loop (absDB fails) tables rest w1 →
        w1.trace = w.trace ++ ext1 →
        Extends w.st w1.st →
        (∀ x, x ≠ k1 → SameAt x w.st w1.st) →
        (∀ p ∈ ext1,
            (p.1 = Action.createTable k1 v1 ∧ k1 ∉ tables)
            ∨ (∃ c, c ∈ v1 ∧ p.1 = Action.addColumn k1 c ∧ k1 ∈ tables
                ∧ c.Name ∉ w.st.cols k1)) →
        ((∀ p ∈ ext1, p.2 = none) → k1 ∈ w1.st.names ∧ ∀ c ∈ v1, c.Name ∈ w1.st.cols k1) →
        ∃ wf ext, syncSchema.loop (absDB fails) tables ((k1, v1) :: rest) w = Outcome.done wf
          ∧ wf.trace = w.trace ++ ext
          ∧ Extends w.st wf.st
          ∧ (∀ x, x ∉ ((k1, v1) :: rest).map Prod.fst → SameAt x w.st wf.st)
          ∧ (∀ p ∈ ext,
              (∃ k v, (k, v) ∈ (k1, v1) :: rest ∧ p.1 = Action.createTable k v ∧ k ∉ tables)
              ∨ (∃ k v c, (k, v) ∈ (k1, v1) :: rest ∧ c ∈ v ∧ p.1 = Action.addColumn k c
                  ∧ k ∈ tables ∧ c.Name ∉ w.st.cols k))
          ∧ ((∀ p ∈ ext, p.2 = none) →
              ∀ k v, (k, v) ∈ (k1, v1) :: rest →
                k ∈ wf.st.names ∧ ∀ c ∈ v, c.Name ∈ wf.st.cols k) := by
      intro w1 ext1 hrun htr hext hsame hdesc hok
      have htab' : ∀ k ∈ rest.map Prod.fst, (k ∈ tables ↔ k ∈ w1.st.names) := by
        intro k hk
        have hkne : k ≠ k1 := fun h => hk1 (h ▸ hk)
        rw [htab k (List.mem_cons_of_mem _ hk)]
        exact (hsame k hkne).1.symm
      obtain ⟨wf, ext2, h1, h2, h3, h4, h5, h6⟩ := ih w1 hnd' htab'
      refine ⟨wf, ext1 ++ ext2, hrun.trans h1, ?_, extends_trans hext h3, ?_, ?_, ?_⟩
      · rw [h2, htr, List.append_assoc]
      · intro x hx
        have hx1 : x ≠ k1 := fun h => hx (by simp [h])
        have hx2 : x ∉ rest.map Prod.fst := fun h => hx (List.mem_cons_of_mem _ h)
        exact sameAt_trans (hsame x hx1) (h4 x hx2)
      · intro p hp
        rcases List.mem_append.1 hp with hp | hp
        · rcases hdesc p hp with ⟨h, h'⟩ | ⟨c, hc, h, h', h''⟩
          · exact Or.inl ⟨k1, v1, List.mem_cons_self _ _, h, h'⟩
          · exact Or.inr ⟨k1, v1, c, List.mem_cons_self _ _, hc, h, h', h''⟩
        · rcases h5 p hp with ⟨k, v, hkv, h, h'⟩ | ⟨k, v, c, hkv, hc, h, h', h''⟩
          · exact Or.inl ⟨k, v, List.mem_cons_of_mem _ hkv, h, h'⟩
          · refine Or.inr ⟨k, v, c, List.mem_cons_of_mem _ hkv, hc, h, h', ?_⟩
            rw [← (hsame k (hne k v hkv)).2]
            exact h''
      · intro hall k v hkv
        rcases List.mem_cons.1 hkv with heq | hmem
        · cases heq
          obtain ⟨hn1, hc1⟩ := hok (fun p hp => hall p (List.mem_append_left _ hp))
          exact ⟨h3.1 hn1, fun c hc => h3.2 k1 hn1 (hc1 c hc)⟩
        · exact h6 (fun p hp => hall p (List.mem_append_right _ hp)) k v hmem
    by_cases hex : k1 ∈ tables
    · have hin : k1 ∈ w.st.names := (htab k1 (by simp)).1 hex
      obtain ⟨w1, ext1, hs, h2, h3, h4, h5, h6⟩ := absDB_syncColumns fails w k1 v1 hin
      apply hstep w1 ext1 _ h2 h3 h4
      · intro p hp
        obtain ⟨c, hc, hp1, hp2⟩ := h5 p hp
        exact Or.inr ⟨c, hc, hp1, hex, hp2⟩
      · intro hall
        exact ⟨h3.1 hin, h6 hall⟩
      · simp only [syncSchema.loop, hex, not_true_eq_false, if_false, hs]
    · have hout : k1 ∉ w.st.names := fun h => hex ((htab k1 (by simp)).2 h)
      apply hstep (createTable (absDB fails) w k1 v1)
        [(Action.createTable k1 v1, (absExec fails w.st (Action.createTable k1 v1)).2)]
      · simp only [syncSchema.loop, hex, not_false_eq_true, if_true]
      · exact createTable_trace _ w k1 v1
      · rw [createTable_st]
        exact absExec_extends fails w.st _
      · intro x hx
        rw [createTable_st]
        exact absExec_sameAt fails w.st (Action.createTable k1 v1) x hx
      · intro p hp
        rw [List.mem_singleton.1 hp]
        exact Or.inl ⟨rfl, hex⟩
      · intro hall
        have hok := absExec_createTable_ok fails w.st k1 v1 (hall _ (List.mem_singleton.2 rfl))
        rw [createTable_st]
        refine ⟨hok.1, ?_⟩
        intro c hc
        show c.Name ∈ (absExec fails w.st (Action.createTable k1 v1)).1.cols k1
        rw [hok.2]
        exact List.mem_map.2 ⟨c, hc, rfl⟩

/-- When every desired table exists with all its desired columns, the column
loop issues nothing and leaves the engine state alone. -/
theorem syncColumns_loop_converged {σ : Type} (db : DB σ) (t : String) (dbtable : List Row)
    (hn : NamedRows dbtable) :
    ∀ (cs : List Column_Def) (w : World σ), (∀ c ∈ cs, Listed dbtable c.Name) →
      syncColumns.loop db t dbtable cs w = Outcome.done w := by
  intro cs
  induction cs with
  | nil => intro w _; rfl
  | cons c cs ih =>
    intro w h
    simp only [syncColumns.loop, hasColumn_named dbtable c hn]
    have hl : Listed dbtable c.Name := h c (List.mem_cons_self _ _)
    simp only [hl, decide_True]
    exact ih w (fun c1 hc1 => h c1 (List.mem_cons_of_mem _ hc1))

theorem absDB_loop_converged (fails : Nat → Action → Bool) (tables : TableSet) :
    ∀ (rest : Schema) (w : World AbsState),
      (∀ k v, (k, v) ∈ rest → k ∈ tables ∧ k ∈ w.st.names ∧ ∀ c ∈ v, c.Name ∈ w.st.cols k) →
      ∃ wf, syncSchema.loop (absDB fails) tables rest w = Outcome.done wf
        ∧ wf.trace = w.trace ∧ wf.st = w.st := by
  intro rest
  induction rest with
  | nil => intro w _; exact ⟨w, rfl, rfl, rfl⟩
  | cons kv rest ih =>
    obtain ⟨k1, v1⟩ := kv
    intro w h
    obtain ⟨hex, hin, hcols⟩ := h k1 v1 (List.mem_cons_self _ _)
    have hdef := absDB_getTableDef fails w k1
    simp only [hin, if_true] at hdef
    have hs : syncColumns (absDB fails) w k1 v1
        = Outcome.done (w.log ("table name " ++ k1)) := by
      unfold syncColumns
      rw [hdef]
      exact syncColumns_loop_converged _ k1 _ (absRows_named _) v1 _
        (fun c hc => (absRows_listed _ _).2 (hcols c hc))
    obtain ⟨wf, h1, h2, h3⟩ := ih (w.log ("table name " ++ k1))
      (fun k v hkv => h k v (List.mem_cons_of_mem _ hkv))
    refine ⟨wf, ?_, h2, h3⟩
    simp only [syncSchema.loop, hex, not_true_eq_false, if_false, hs]
    exact h1

/-- What a run on the abstract engine does, from the state `D` on. -/
theorem absDB_syncSchema (fails : Nat → Action → Bool) (schema : Schema)
    (hnd : NodupKeys schema) (D : AbsState) :
    ∃ tables wf, getTables (absDB fails) (World.init D) = (some tables, World.init D)
      ∧ (∀ n, n ∈ tables ↔ n ∈ D.names)
      ∧ syncSchema (absDB fails) schema (World.init D) = Outcome.done wf
      ∧ Extends D wf.st
      ∧ (∀ p ∈ wf.trace,
          (∃ k v, (k, v) ∈ schema ∧ p.1 = Action.createTable k v ∧ k ∉ tables)
          ∨ (∃ k v c, (k, v) ∈ schema ∧ c ∈ v ∧ p.1 = Action.addColumn k c ∧ k ∈ tables
              ∧ c.Name ∉ D.cols k))
      ∧ ((∀ p ∈ wf.trace, p.2 = none) →
          ∀ k v, (k, v) ∈ schema → k ∈ wf.st.names ∧ ∀ c ∈ v, c.Name ∈ wf.st.cols k) := by
  obtain ⟨tables, hgt, hmem⟩ := absDB_getTables fails (World.init D)
  obtain ⟨wf, ext, h1, h2, h3, _, h5, h6⟩ :=
    absDB_syncSchema_loop fails tables schema (World.init D) hnd (fun k _ => hmem k)
  have htr : wf.trace = ext := by rw [h2]; rfl
  refine ⟨tables, wf, hgt, hmem, ?_, h3, ?_, ?_⟩
  · simp only [syncSchema, hgt]
    exact h1
  · rw [htr]; exact h5
  · rw [htr]; exact h6

/-- C6: on the abstract engine (a successful `createTable` adds the table with
its desired columns, a successful `addColumn` appends the column), for every
schema with distinct keys and every state: the first run returns, and if every
statement of it succeeded, a second run from the resulting state returns with
an empty trace (no `createTable`, no `addColumn`) and the same state, whatever
the engine would answer. -/
theorem sync_twice_issues_nothing (fails fails2 : Nat → Action → Bool) (schema : Schema)
    (hnd : NodupKeys schema) (D : AbsState) :
    ∃ w1, syncSchema (absDB fails) schema (World.init D) = Outcome.done w1
      ∧ ((∀ p ∈ w1.trace, p.2 = none) →
          ∃ w2, syncSchema (absDB fails2) schema (World.init w1.st) = Outcome.done w2
            ∧ w2.trace = [] ∧ w2.st = w1.st) := by
  obtain ⟨_, w1, _, _, hrun, _, _, hok⟩ := absDB_syncSchema fails schema hnd D
  refine ⟨w1, hrun, fun hall => ?_⟩
  obtain ⟨tables2, hgt, hmem⟩ := absDB_getTables fails2 (World.init w1.st)
  obtain ⟨w2, h1, h2, h3⟩ :=
    absDB_loop_converged fails2 tables2 schema (World.init w1.st)
      (fun k v hkv =>
        ⟨(hmem k).2 (hok hall k v hkv).1, (hok hall k v hkv).1, (hok hall k v hkv).2⟩)
  refine ⟨w2, ?_, h2, h3⟩
  simp only [syncSchema, hgt]
  exact h1

/-- C6 on the database `person(age)` and the schema `person(age, nick)`,
`pet(id)`: the first run succeeds, the second issues nothing even on an engine
that would reject every statement. -/
theorem sync_twice_issues_nothing_witness :
    NodupKeys petSchema
      ∧ (∀ p ∈ (syncSchema (absDB (fun _ _ => false)) petSchema
            (World.init personState)).world.trace, p.2 = none)
      ∧ ∃ w2, syncSchema (absDB (fun _ _ => true)) petSchema
            (World.init (syncSchema (absDB (fun _ _ => false)) petSchema
              (World.init personState)).world.st) = Outcome.done w2
          ∧ w2.trace = []
          ∧ w2.st = (syncSchema (absDB (fun _ _ => false)) petSchema
              (World.init personState)).world.st := by
  obtain ⟨w1, h1, h2⟩ :=
    sync_twice_issues_nothing (fun _ _ => false) (fun _ _ => true) petSchema (by decide)
      personState
  have hw : (syncSchema (absDB (fun _ _ => false)) petSchema
      (World.init personState)).world = w1 := by rw [h1]; rfl
  have hall : ∀ p ∈ (syncSchema (absDB (fun _ _ => false)) petSchema
      (World.init personState)).world.trace, p.2 = none := by decide
  refine ⟨by decide, hall, ?_⟩
  rw [hw] at hall ⊢
  exact h2 hall

/-- C7: on the abstract engine, for every schema with distinct keys, every
state `D` and any pattern of failing statements, the run returns; every
statement it issues is a `createTable` for a table that is neither in the set
of `getTables` nor in `D`, or an `addColumn` for a table in that set and a
column for which `hasColumn` on the table's introspected rows is false (its
name is not among the columns `D` has for the table); and every table of `D`
and every column of such a table is still there after the run. -/
theorem sync_is_additive (fails : Nat → Action → Bool) (schema : Schema)
    (hnd : NodupKeys schema) (D : AbsState) :
    ∃ tables wf, (getTables (absDB fails) (World.init D)).1 = some tables
      ∧ syncSchema (absDB fails) schema (World.init D) = Outcome.done wf
      ∧ (∀ a ∈ wf.issued,
          (∃ k v, a = Action.createTable k v ∧ (k, v) ∈ schema ∧ k ∉ tables ∧ k ∉ D.names)
          ∨ (∃ k c, a = Action.addColumn k c ∧ k ∈ tables ∧ k ∈ D.names
              ∧ (∃ E, (getTableDef (absDB fails) (World.init D) k).1 = some E
                  ∧ hasColumn E c = some false)
              ∧ c.Name ∉ D.cols k))
      ∧ D.names ⊆ wf.st.names
      ∧ ∀ t ∈ D.names, D.cols t ⊆ wf.st.cols t := by
  obtain ⟨tables, wf, hgt, hmem, hrun, hext, hdesc, _⟩ := absDB_syncSchema fails schema hnd D
  refine ⟨tables, wf, by rw [hgt], hrun, ?_, hext.1, hext.2⟩
  intro a ha
  obtain ⟨p, hp, rfl⟩ := List.mem_map.1 ha
  rcases hdesc p hp with ⟨k, v, hkv, h1, h2⟩ | ⟨k, v, c, _, _, h1, h2, h3⟩
  · exact Or.inl ⟨k, v, h1, hkv, h2, fun h => h2 ((hmem k).2 h)⟩
  · have hin : k ∈ D.names := (hmem k).1 h2
    refine Or.inr ⟨k, c, h1, h2, hin, ?_, h3⟩
    have hdef := absDB_getTableDef fails (World.init D) k
    have hst : (World.init D).st = D := rfl
    rw [hst] at hdef
    simp only [hin, if_true] at hdef
    refine ⟨absRows (D.cols k), by rw [hdef], ?_⟩
    rw [hasColumn_named _ c (absRows_named _)]
    have : ¬ Listed (absRows (D.cols k)) c.Name := fun h => h3 ((absRows_listed _ _).1 h)
    simp [this]

/-- C7 on the database `person(age)` with every statement failing: the run
issues `addColumn person nick` and `createTable pet`, and `person` with its
column `age` is still there. -/
theorem sync_is_additive_witness :
    NodupKeys petSchema
      ∧ (syncSchema (absDB (fun _ _ => true)) petSchema (World.init personState)).world.issued
          = [Action.addColumn "person" ⟨1, "", "nick", 0, 0, "TEXT"⟩,
             Action.createTable "pet" [⟨0, "", "id", 0, 1, "INTEGER"⟩]]
      ∧ ∃ tables wf, (getTables (absDB (fun _ _ => true)) (World.init personState)).1
            = some tables
          ∧ syncSchema (absDB (fun _ _ => true)) petSchema (World.init personState)
            = Outcome.done wf
          ∧ personState.names ⊆ wf.st.names
          ∧ ∀ t ∈ personState.names, personState.cols t ⊆ wf.st.cols t := by
  obtain ⟨tables, wf, h1, h2, _, h4, h5⟩ :=
    sync_is_additive (fun _ _ => true) petSchema (by decide) personState
  exact ⟨by decide, by decide, tables, wf, h1, h2, h4, h5⟩

end SqliteSchema
